import Mathlib

/-!
Verification of the gpumap-viz backend (session runner, wire protocol,
preflight checks) against its natural-language specification.

The Python sources `backend/runner.py`, `backend/main.py` and
`test_websocket_client.py` are shallowly embedded below.  Machine integers
are modelled as `Nat` (engine counters are non-negative); IEEE-754 float32
values that are only moved byte-for-byte by the encoder are carried as
their 32-bit bit patterns.
-/

namespace GpumapViz

/-- ASCII lower-casing, mirror of Python `str.lower()` on the ASCII
messages produced by the backend. -/
def lowerStr (s : String) : String := String.mk (s.data.map Char.toLower)

/-- Strip leading and trailing whitespace from a character list. -/
def trimChars (cs : List Char) : List Char :=
  ((cs.dropWhile Char.isWhitespace).reverse.dropWhile Char.isWhitespace).reverse

/-- Mirror of Python `str.strip()` (whitespace on both ends) on the ASCII
messages produced by the backend. -/
def strTrim (s : String) : String := String.mk (trimChars s.data)

/-- `pat` occurs as a contiguous sublist of `hay`. -/
def occursIn (hay pat : List Char) : Bool :=
  pat.isPrefixOf hay ||
  (match hay with
   | [] => false
   | _ :: t => occursIn t pat)

/-- Substring test, mirror of Python `needle in haystack`. -/
def strContains (hay pat : String) : Bool := occursIn hay.data pat.data

/-- A Python exception value: class name, `str(exc)` text, and whether it
is an instance of `MemoryError`. -/
structure Exc where
  cls : String
  msg : String
  isMemErr : Bool
deriving DecidableEq, Repr

/-- `runner._is_bad_alloc_error`:
`isinstance(exc, MemoryError) or "std::bad_alloc" in str(exc).lower()`. -/
def isBadAllocError (e : Exc) : Bool :=
  e.isMemErr || strContains (lowerStr e.msg) "std::bad_alloc"

/-- `detail = str(exc).strip() or "std::bad_alloc"` — the first binding of
`runner._format_bad_alloc_message`. -/
def badAllocDetail (e : Exc) : String :=
  if strTrim e.msg = "" then "std::bad_alloc" else strTrim e.msg

/-- The CUDA operating-system-error signature test of
`_format_bad_alloc_message` (`"cudaerroroperatingsystem" in lower or
"operation not supported on this os" in lower`). -/
def hasCudaOsSignature (e : Exc) : Bool :=
  strContains (lowerStr (badAllocDetail e)) "cudaerroroperatingsystem" ||
  strContains (lowerStr (badAllocDetail e)) "operation not supported on this os"

/-- The suggested external verification command embedded in the CUDA
branch of `_format_bad_alloc_message`. -/
def verifyCmd : String :=
  "`python -c \"import cupy as cp; print(cp.cuda.runtime.getDeviceCount())\"`"

/-- `runner._format_bad_alloc_message`. -/
def formatBadAllocMessage (e : Exc) : String :=
  if hasCudaOsSignature e then
    "CUDA runtime initialization failed (cudaErrorOperatingSystem). " ++
    "This process cannot allocate GPU memory. " ++
    "Original error: " ++ badAllocDetail e ++ ". " ++
    "Run this in the same environment to verify: " ++
    verifyCmd
  else
    "GPUMAP failed with std::bad_alloc. Original error: " ++ badAllocDetail e

/-- `runner._MAX_NEIGHBORS`. -/
def MAX_NEIGHBORS : Nat := 32

/-- `runner._NUM_SAMPLES`. -/
def NUM_SAMPLES : Nat := 32

/-- The slice of the start config that `_run` inspects directly
(`config.get("n_neighbors", 15)`); the remaining scalar fields are only
forwarded to the opaque engine. -/
structure Config where
  n_neighbors : Option Int
deriving DecidableEq, Repr

/-- `int(config.get("n_neighbors", 15))`. -/
def cfgNeighbors (cfg : Config) : Int := cfg.n_neighbors.getD 15

/-- `runner._check_limits`: `none` means the check passed, `some e` the
exception it raises.  `memlockSoft = none` models an unlimited
`RLIMIT_MEMLOCK` soft limit. -/
def checkLimits (cfg : Config) (n_instances : Nat) (memlockSoft : Option Nat) :
    Option Exc :=
  let nn := cfgNeighbors cfg
  if nn < 1 || nn > (MAX_NEIGHBORS : Int) then
    some { cls := "ValueError",
           msg := "n_neighbors must be in [1, " ++ toString MAX_NEIGHBORS ++
                  "] (got " ++ toString nn ++ ").",
           isMemErr := false }
  else
    let estimated_pinned_bytes :=
      n_instances * NUM_SAMPLES * 4 * 5 + n_instances * 8 * 2 + n_instances * 4
    match memlockSoft with
    | none => none
    | some soft =>
      if estimated_pinned_bytes > soft then
        some { cls := "RuntimeError",
               msg := "Pinned host-memory requirement is likely above RLIMIT_MEMLOCK.",
               isMemErr := false }
      else none

/-- One result object of `model.run(target_latency=...)` together with the
embedding snapshot and wall-clock reading of that loop iteration.  The four
timing fields and the embedding coordinates are float32 bit patterns. -/
structure StepRes where
  insertion_completed : Bool
  n_insertion_ops : Nat
  n_update_ops : Nat
  n_embedding_ops : Nat
  insertion_time : Nat
  update_time : Nat
  embedding_time : Nat
  wall_time : Nat
  insertion_queue_size : Nat
  update_queue_size : Nat
  embedding_queue_level_sizes : List Nat
  emb : List (Nat × Nat)
deriving DecidableEq, Repr

/-- The payload of an `{"type": "embedding"}` queue message built in
`GPUMAPRunner._run`'s loop body. -/
structure EmbMsg where
  emb : List (Nat × Nat)
  n_inserted : Nat
  n_update_ops : Nat
  n_embedding_ops : Nat
  is_done : Bool
  insertion_time : Nat
  update_time : Nat
  embedding_time : Nat
  wall_time : Nat
  insertion_queue_size : Nat
  update_queue_size : Nat
  embedding_queue_levels : List Nat
deriving DecidableEq, Repr

/-- A message put on the relay queue (`GPUMAPRunner` queue message format). -/
inductive Msg where
  | started (n_instances n_features : Nat) (class_labels : Option (List Int))
  | embedding (m : EmbMsg)
  | error (message tb : String)
  | done
deriving DecidableEq, Repr

/-- `message = str(exc).strip() or exc.__class__.__name__` (from the
`except` block of `_run`). -/
def excText (e : Exc) : String := if strTrim e.msg = "" then e.cls else strTrim e.msg

/-- Stand-in for `traceback.format_exc()`: the final line of a Python
traceback, `<class>: <text>`. -/
def excTrace (e : Exc) : String := e.cls ++ ": " ++ e.msg

/-- The embedding message built from one step result, given the latched
`all_inserted` flag *after* this iteration's update. -/
def mkEmbMsg (r : StepRes) (allInserted : Bool) : EmbMsg :=
  let levels := r.embedding_queue_level_sizes
  { emb := r.emb
    n_inserted := r.n_insertion_ops
    n_update_ops := r.n_update_ops
    n_embedding_ops := r.n_embedding_ops
    is_done := allInserted && (levels.sum == 0)
    insertion_time := r.insertion_time
    update_time := r.update_time
    embedding_time := r.embedding_time
    wall_time := r.wall_time
    insertion_queue_size := r.insertion_queue_size
    update_queue_size := r.update_queue_size
    embedding_queue_levels := levels }

/-- What `_run` reads off the data loader returned by `_make_data_loader`:
instance/feature counts and the optional `y` labels attribute. -/
structure LoaderInfo where
  n_instances : Nat
  n_features : Nat
  y : Option (List Int)
deriving DecidableEq, Repr

/-- The `class_labels` computation of `_run`: labels are forwarded only
when the label vector's length matches the instance count (the
`reshape`/`astype` conversions are shape-preserving on well-formed label
vectors; a conversion failure yields `none` like the `except` arm). -/
def classLabelsOf (ld : LoaderInfo) : Option (List Int) :=
  match ld.y with
  | none => none
  | some ls => if ls.length = ld.n_instances then some ls else none

/-- Environment of one `_run` execution: outcomes of every call into the
opaque collaborators (CUDA runtime check, data loader, the two possible
`GPUMAP(...)` construction attempts, the engine step results) and the
`stop_event.is_set()` reading at each top-of-loop check (`getD false`:
a missing entry reads as "not set"). -/
structure Env where
  cudaError : Option Exc
  loader : Except Exc LoaderInfo
  memlockSoft : Option Nat
  ctor1 : Option Exc
  ctor2 : Option Exc
  steps : List (Except Exc StepRes)
  stopFlags : List Bool
deriving Repr

/-- `GPUMAP(...)` construction with the retry-once-on-bad-alloc policy of
`_run` (`for attempt in range(2)`).  Returns the number of construction
attempts made, or the exception finally raised together with that count. -/
def constructEngine (env : Env) : Except (Exc × Nat) Nat :=
  match env.ctor1 with
  | none => Except.ok 1
  | some e1 =>
    if !isBadAllocError e1 then Except.error (e1, 1)
    else
      match env.ctor2 with
      | none => Except.ok 2
      | some e2 =>
        if !isBadAllocError e2 then Except.error (e2, 2)
        else
          Except.error
            ({ cls := "RuntimeError", msg := formatBadAllocMessage e2,
               isMemErr := false }, 2)

/-- How `_run`'s `while not stop_event.is_set(): ...` loop ended. -/
inductive LoopExit where
  | doneExit
  | stopExit
  | errExit (e : Exc)
  | fuelOut
deriving DecidableEq, Repr

/-- The step loop of `_run`: per iteration, check the stop event, run one
engine step (which may raise), emit one embedding message, and exit when
`is_done`.  `allIns` is the latched `all_inserted` flag.  `fuelOut` marks
an environment that supplies too few step results to decide the run. -/
def loopRun (stopFlags : List Bool) (steps : List (Except Exc StepRes))
    (allIns : Bool) : List Msg × LoopExit :=
  if stopFlags.headD false then ([], LoopExit.stopExit)
  else
    match steps with
    | [] => ([], LoopExit.fuelOut)
    | Except.error e :: _ => ([], LoopExit.errExit e)
    | Except.ok r :: rest =>
      let latched := allIns || r.insertion_completed
      let m := mkEmbMsg r latched
      if m.is_done then ([Msg.embedding m], LoopExit.doneExit)
      else
        let next := loopRun stopFlags.tail rest latched
        (Msg.embedding m :: next.1, next.2)

/-- An observable action of the worker thread: a `self._put(...)` call or a
`model.close()` call. -/
inductive Act where
  | close
  | put (m : Msg)
deriving DecidableEq, Repr

/-- Result of one `_run` execution: the ordered observable actions, the
number of `GPUMAP(...)` construction attempts, and whether the environment
ran out of step results before the loop exited. -/
structure RunOut where
  acts : List Act
  ctorAttempts : Nat
  ranOut : Bool
deriving DecidableEq, Repr

/-- `_run`'s exit through the `finally` block after a normal (or
stop-triggered) body completion: close the model when one was built, then
put `done`. -/
def finishOk (pre : List Act) (built : Bool) (attempts : Nat) : RunOut :=
  { acts := pre ++ (if built then [Act.close] else []) ++ [Act.put Msg.done]
    ctorAttempts := attempts
    ranOut := false }

/-- `_run`'s exit when the body raised `e`: the `except` block puts the
error message, then the `finally` block closes the model (when built) and
puts `done`. -/
def finishErr (pre : List Act) (built : Bool) (attempts : Nat) (e : Exc) : RunOut :=
  { acts := pre ++ [Act.put (Msg.error (excText e) (excTrace e))] ++
            (if built then [Act.close] else []) ++ [Act.put Msg.done]
    ctorAttempts := attempts
    ranOut := false }

/-- `GPUMAPRunner._run`, phase by phase: memlock raise (no observable
queue/engine effect), CUDA runtime check, data-loader construction,
`_check_limits`, engine construction with one retry, the `started`
message, the step loop, and the `except`/`finally` epilogue. -/
def runWorker (cfg : Config) (env : Env) : RunOut :=
  match env.cudaError with
  | some e => finishErr [] false 0 e
  | none =>
    match env.loader with
    | Except.error e => finishErr [] false 0 e
    | Except.ok ld =>
      match checkLimits cfg ld.n_instances env.memlockSoft with
      | some e => finishErr [] false 0 e
      | none =>
        match constructEngine env with
        | Except.error (e, k) => finishErr [] false k e
        | Except.ok k =>
          let startAct :=
            Act.put (Msg.started ld.n_instances ld.n_features (classLabelsOf ld))
          match loopRun env.stopFlags env.steps false with
          | (ms, LoopExit.errExit e) =>
            finishErr (startAct :: ms.map Act.put) true k e
          | (ms, LoopExit.fuelOut) =>
            { acts := startAct :: ms.map Act.put, ctorAttempts := k, ranOut := true }
          | (ms, _) =>
            finishOk (startAct :: ms.map Act.put) true k

/-- The queue messages among a worker's actions, in order. -/
def msgsOf (acts : List Act) : List Msg :=
  acts.filterMap (fun a => match a with | Act.put m => some m | Act.close => none)

/-- The exception, if any, with which the body of `_run` fails: the first
raise along its control flow — the CUDA runtime check, data-loader
construction, `_check_limits`, engine construction (after its retry), or a
raising engine step inside the loop.  `none` when the body completes
normally or exits on the stop event. -/
def runErr (cfg : Config) (env : Env) : Option Exc :=
  match env.cudaError with
  | some e => some e
  | none =>
    match env.loader with
    | Except.error e => some e
    | Except.ok ld =>
      match checkLimits cfg ld.n_instances env.memlockSoft with
      | some e => some e
      | none =>
        match constructEngine env with
        | Except.error (e, _) => some e
        | Except.ok _ =>
          match (loopRun env.stopFlags env.steps false).2 with
          | LoopExit.errExit e => some e
          | _ => none

/-- `runner.NpyDataLoader`: the loaded 2-D array as a list of rows plus the
consumption cursor `_idx`. -/
structure NpyDataLoader (α : Type) where
  X : List α
  idx : Nat
deriving Repr

/-- `NpyDataLoader.get_next_chunk`:
`chunk_size = min(chunk_size, self.n_instances - self._idx)`;
`chunk = self.X[self._idx : self._idx + chunk_size]`;
`self._idx += chunk_size`.  Returns the chunk and the updated loader. -/
def getNextChunk (l : NpyDataLoader α) (chunk_size : Nat) :
    List α × NpyDataLoader α :=
  let cs := min chunk_size (l.X.length - l.idx)
  ((l.X.drop l.idx).take cs, { l with idx := l.idx + cs })

/-- Fresh loader over rows `X` (`self._idx = 0`). -/
def mkNpyLoader (X : List α) : NpyDataLoader α := { X := X, idx := 0 }

/-- Little-endian byte image of `n` on `k` bytes (the bytes `struct.pack`
writes for an in-range value of a `k`-byte integer field). -/
def leBytes : Nat → Nat → List Nat
  | 0, _ => []
  | k + 1, n => n % 256 :: leBytes k (n / 256)

/-- Value of a little-endian byte list. -/
def valLE : List Nat → Nat
  | [] => 0
  | b :: bs => b + 256 * valLE bs

/-- Read the `k`-byte little-endian integer at byte offset `off`. -/
def readLE (data : List Nat) (off k : Nat) : Nat :=
  valLE ((data.drop off).take k)

/-- One field of a `struct` format: `Q` (uint64), `I` (uint32) or `f`
(float32, carried as its bit pattern). -/
inductive FieldVal where
  | u64 (n : Nat)
  | u32 (n : Nat)
  | f32 (bits : Nat)
deriving DecidableEq, Repr

/-- Byte size of a field. -/
def fsize : FieldVal → Nat
  | FieldVal.u64 _ => 8
  | FieldVal.u32 _ => 4
  | FieldVal.f32 _ => 4

/-- The bytes `struct.pack` emits for one little-endian field. -/
def fieldBytes : FieldVal → List Nat
  | FieldVal.u64 n => leBytes 8 n
  | FieldVal.u32 n => leBytes 4 n
  | FieldVal.f32 b => leBytes 4 b

/-- The integer a decoder reads back from a field's bytes. -/
def fval : FieldVal → Nat
  | FieldVal.u64 n => n % 2 ^ 64
  | FieldVal.u32 n => n % 2 ^ 32
  | FieldVal.f32 b => b % 2 ^ 32

/-- `struct.pack` over a `<`-prefixed (unpadded little-endian) format. -/
def packFields (fs : List FieldVal) : List Nat := (fs.map fieldBytes).flatten

/-- `main.websocket_endpoint`'s normalisation of
`msg.get("embedding_queue_levels", [])`: truncate to ten entries, then
zero-pad up to ten. -/
def padTruncLevels (ls : List Nat) : List Nat :=
  let t := ls.take 10
  t ++ List.replicate (10 - t.length) 0

/-- The header fields of a server binary frame, in `BINARY_HEADER_FMT`
(`<QIIQQffffQQ10Q`) order, as packed by `main.websocket_endpoint`. -/
def headerFields (m : EmbMsg) : List FieldVal :=
  [FieldVal.u64 m.n_inserted,
   FieldVal.u32 m.emb.length,
   FieldVal.u32 (if m.is_done then 1 else 0),
   FieldVal.u64 m.n_update_ops,
   FieldVal.u64 m.n_embedding_ops,
   FieldVal.f32 m.insertion_time,
   FieldVal.f32 m.update_time,
   FieldVal.f32 m.embedding_time,
   FieldVal.f32 m.wall_time,
   FieldVal.u64 m.insertion_queue_size,
   FieldVal.u64 m.update_queue_size] ++
  (padTruncLevels m.embedding_queue_levels).map (fun v => FieldVal.u64 v)

/-- `emb.astype(np.float32, copy=False).flatten().tobytes()`: four bytes
per coordinate, two coordinates per point, ordered by point index. -/
def payloadBytes (m : EmbMsg) : List Nat :=
  (m.emb.map (fun p => leBytes 4 p.1 ++ leBytes 4 p.2)).flatten

/-- `websocket_endpoint`'s binary frame for one embedding message:
`header + flat.tobytes()`. -/
def encodeFrame (m : EmbMsg) : List Nat :=
  packFields (headerFields m) ++ payloadBytes m

/-- `struct.calcsize(HEADER_FMT)` of the test client (`<IIIIIffff10I`). -/
def CLIENT_HEADER_SIZE : Nat := 76

/-- The dictionary `test_websocket_client.parse_binary_frame` returns for a
frame at least `HEADER_SIZE` bytes long. -/
structure ClientFrame where
  ok : Bool
  size : Nat
  n_points : Nat
  n_inserted : Nat
  is_done : Nat
  n_update_ops : Nat
  n_embedding_ops : Nat
  insertion_time : Nat
  update_time : Nat
  embedding_time : Nat
  wall_time : Nat
  queue_levels : List Nat
  payload_bytes : Nat
  expected_payload_bytes : Nat
deriving DecidableEq, Repr

/-- Result of `parse_binary_frame`: the too-small rejection dictionary or
the parsed dictionary. -/
inductive ParseRes where
  | tooSmall (size : Nat)
  | parsed (f : ClientFrame)
deriving DecidableEq, Repr

/-- The `"ok"` entry of the returned dictionary. -/
def parseOk : ParseRes → Bool
  | ParseRes.tooSmall _ => false
  | ParseRes.parsed f => f.ok

/-- `test_websocket_client.parse_binary_frame`: unpack a 76-byte
`<IIIIIffff10I` header, then compare the remaining payload length against
`n_points * 2 * 4`. -/
def parseBinaryFrame (data : List Nat) : ParseRes :=
  if data.length < CLIENT_HEADER_SIZE then ParseRes.tooSmall data.length
  else
    let n_points := readLE data 4 4
    let payload_bytes := data.length - CLIENT_HEADER_SIZE
    let expected := n_points * 2 * 4
    ParseRes.parsed
      { ok := payload_bytes == expected
        size := data.length
        n_points := n_points
        n_inserted := readLE data 0 4
        is_done := readLE data 8 4
        n_update_ops := readLE data 12 4
        n_embedding_ops := readLE data 16 4
        insertion_time := readLE data 20 4
        update_time := readLE data 24 4
        embedding_time := readLE data 28 4
        wall_time := readLE data 32 4
        queue_levels := (List.range 10).map (fun i => readLE data (36 + 4 * i) 4)
        payload_bytes := payload_bytes
        expected_payload_bytes := expected }

/-! ## Trace model of the session broker

Interleaving semantics for `GPUMAPRunner.start/stop/_stop_running/_put/_run`
together with `main.api_start/api_stop`.  Worker, queue and model handles
are identified by their allocation index.  A worker thread is modelled at
the granularity of its observable atomic actions: the construction step
(engine built, `started` put), one loop-head stop-check, one engine step
(`embedding` put), and the `finally` epilogue (close, reference reset,
`done` put).  The preflight/construction-failure paths of `_run` are
covered by the pure `runWorker` model above; trace-model workers take the
successful construction path. -/

/-- Control point of a worker thread inside `_run`. -/
inductive WPhase where
  | init
  | loopTop
  | inStep (r : StepRes)
  | final
  | dead
deriving DecidableEq, Repr

/-- One worker thread: its 1:1 stop event, its local `model` variable, the
latched `all_inserted` flag, its control point, the engine step results it
has yet to consume, and the loader facts it reports in `started`. -/
structure TWorker where
  stopEvt : Bool
  localModel : Option Nat
  allInserted : Bool
  phase : WPhase
  results : List StepRes
  n_instances : Nat
  n_features : Nat
  labels : Option (List Int)
deriving DecidableEq, Repr

/-- Bookkeeping for one engine handle: how many times `close()` has been
called on it and which worker constructed it. -/
structure MRec where
  closed : Nat
  creator : Nat
deriving DecidableEq, Repr

/-- A queue entry: the message and (as observer metadata) the worker that
put it. -/
structure Entry where
  wid : Nat
  msg : Msg
deriving DecidableEq, Repr

/-- Global state: the `GPUMAPRunner` fields (`_thread`, `_thread_stop`,
`_queue`, `_model`), `main._current_queue` (`wsCurrent`), and the pools of
queues, workers and engine handles. -/
structure GState where
  thread : Option Nat
  threadStop : Option Nat
  queueRef : Option Nat
  sharedModel : Option Nat
  wsCurrent : Option Nat
  queues : List (List Entry)
  workers : List TWorker
  models : List MRec
deriving DecidableEq, Repr

/-- `GPUMAPRunner._put`: append to whatever queue `self._queue` currently
references; with no queue installed the message is dropped. -/
def putMsg (g : GState) (w : Nat) (m : Msg) : GState :=
  match g.queueRef with
  | none => g
  | some q => { g with queues := g.queues.set q (g.queues.getD q [] ++ [⟨w, m⟩]) }

/-- Replace worker `w`'s record. -/
def setWorker (g : GState) (w : Nat) (wk : TWorker) : GState :=
  { g with workers := g.workers.set w wk }

/-- One `close()` call on handle `mid`. -/
def incClosed (ms : List MRec) (mid : Nat) : List MRec :=
  ms.set mid { ms.getD mid ⟨0, 0⟩ with closed := (ms.getD mid ⟨0, 0⟩).closed + 1 }

/-- One atomic action of worker `w`'s `_run` body. -/
def wstep (w : Nat) (g : GState) : GState :=
  match g.workers[w]? with
  | none => g
  | some wk =>
    match wk.phase with
    | WPhase.dead => g
    | WPhase.init =>
      -- model = GPUMAP(...); with self._model_lock: self._model = model;
      -- self._put({"type": "started", ...})
      let mid := g.models.length
      let g1 := { g with models := g.models ++ [⟨0, w⟩], sharedModel := some mid }
      let g2 := setWorker g1 w
        { wk with localModel := some mid, phase := WPhase.loopTop }
      putMsg g2 w (Msg.started wk.n_instances wk.n_features wk.labels)
    | WPhase.loopTop =>
      -- while not stop_event.is_set():
      if wk.stopEvt then setWorker g w { wk with phase := WPhase.final }
      else
        match wk.results with
        | [] => g
        | r :: rest =>
          setWorker g w { wk with phase := WPhase.inStep r, results := rest }
    | WPhase.inStep r =>
      -- res = model.run(...); emb = ...; self._put({"type": "embedding", ...});
      -- if is_done: break
      let latched := wk.allInserted || r.insertion_completed
      let m := mkEmbMsg r latched
      let g1 := setWorker g w
        { wk with allInserted := latched,
                  phase := if m.is_done then WPhase.final else WPhase.loopTop }
      putMsg g1 w (Msg.embedding m)
    | WPhase.final =>
      -- finally: model.close(); with lock: if self._model is model:
      -- self._model = None; self._put({"type": "done"}); thread exits
      let g1 :=
        match wk.localModel with
        | none => g
        | some mid =>
          let g' := { g with models := incClosed g.models mid }
          if g'.sharedModel = some mid then { g' with sharedModel := none } else g'
      let g2 := setWorker g1 w { wk with phase := WPhase.dead }
      putMsg g2 w Msg.done

/-- `Thread.is_alive()` for worker `w`. -/
def aliveW (g : GState) (w : Nat) : Bool :=
  match g.workers[w]? with
  | none => false
  | some wk => !(wk.phase == WPhase.dead)

/-- `GPUMAPRunner.is_alive`:
`self._thread is not None and self._thread.is_alive()`. -/
def isAlive (g : GState) : Bool :=
  match g.thread with
  | none => false
  | some w => aliveW g w

/-- Run `n` atomic actions of worker `w`. -/
def stepN (w : Nat) : Nat → GState → GState
  | 0, g => g
  | n + 1, g => stepN w n (wstep w g)

/-- `self._thread_stop.set()`. -/
def setStopEvt (g : GState) (w : Nat) : GState :=
  match g.workers[w]? with
  | none => g
  | some wk => setWorker g w { wk with stopEvt := true }

/-- The force-close branch of `_stop_running`:
`with self._model_lock: if self._model is not None: self._model.close();
self._model = None`. -/
def forceCloseShared (g : GState) : GState :=
  match g.sharedModel with
  | none => g
  | some mid => { g with models := incClosed g.models mid, sharedModel := none }

/-- `GPUMAPRunner._stop_running`.  `joinOk = true` models a
`join(timeout=30.0)` that sees the worker exit (its remaining atomic
actions run to completion: at most four are needed once its stop event is
set); `joinOk = false` models a timed-out join during which the blocked
worker makes no progress.  Afterwards the handle is force-closed only if
the worker thread is still alive, and the thread fields are cleared. -/
def stopRunning (joinOk : Bool) (g : GState) : GState :=
  let g1 :=
    match g.threadStop with
    | some w => setStopEvt g w
    | none => g
  let g2 :=
    match g1.thread with
    | some w => if aliveW g1 w && joinOk then stepN w 4 g1 else g1
    | none => g1
  let g3 :=
    match g2.thread with
    | some w => if aliveW g2 w then forceCloseShared g2 else g2
    | none => g2
  { g3 with thread := none, threadStop := none }

/-- `GPUMAPRunner.stop` (sequencing lock held for the whole call). -/
def runnerStop (joinOk : Bool) (g : GState) : GState := stopRunning joinOk g

/-- `main.api_stop`: `runner.stop(); _current_queue = None`. -/
def apiStop (joinOk : Bool) (g : GState) : GState :=
  { runnerStop joinOk g with wsCurrent := none }

/-- Parameters of a newly spawned run. -/
structure SpawnEnv where
  n_instances : Nat
  n_features : Nat
  labels : Option (List Int)
  results : List StepRes
deriving DecidableEq, Repr

/-- A freshly spawned worker (fresh un-set stop event, no model yet). -/
def mkWorker (sp : SpawnEnv) : TWorker :=
  { stopEvt := false, localModel := none, allInserted := false,
    phase := WPhase.init, results := sp.results,
    n_instances := sp.n_instances, n_features := sp.n_features,
    labels := sp.labels }

/-- `main.api_start`: stop a live runner, install a fresh relay queue as
`_current_queue`, then `runner.start` (which runs `_stop_running` again,
installs `self._queue` and spawns the worker bound to a fresh stop
event). -/
def apiStart (joinOk : Bool) (sp : SpawnEnv) (g : GState) : GState :=
  let gA := if isAlive g then runnerStop joinOk g else g
  let qid := gA.queues.length
  let gB := { gA with queues := gA.queues ++ [[]], wsCurrent := some qid }
  let gC := stopRunning joinOk gB
  let wid := gC.workers.length
  { gC with queueRef := some qid,
            threadStop := some wid,
            thread := some wid,
            workers := gC.workers ++ [mkWorker sp] }

/-- A scheduler event: an operator `start` or `stop` call, or one atomic
action of worker `w`. -/
inductive Ev where
  | estart (joinOk : Bool) (sp : SpawnEnv)
  | estop (joinOk : Bool)
  | estep (w : Nat)
deriving DecidableEq, Repr

/-- Event semantics. -/
def execEv : Ev → GState → GState
  | Ev.estart j sp, g => apiStart j sp g
  | Ev.estop j, g => apiStop j g
  | Ev.estep w, g => wstep w g

/-- Fresh process state. -/
def g0 : GState :=
  { thread := none, threadStop := none, queueRef := none, sharedModel := none,
    wsCurrent := none, queues := [], workers := [], models := [] }

/-- Execute a schedule. -/
def exec (es : List Ev) : GState := es.foldl (fun g e => execEv e g) g0

/-! ## Derived predicates and concrete instances -/

/-- `"ok"`/`"error"` discriminators over queue messages. -/
def isErrMsg : Msg → Bool
  | Msg.error _ _ => true
  | _ => false

/-- `done` discriminator. -/
def isDoneMsg : Msg → Bool
  | Msg.done => true
  | _ => false

/-- Whether this `_run` execution reaches a successful `GPUMAP(...)`
construction (no earlier preflight failure, construction succeeds). -/
def engineBuilt (cfg : Config) (env : Env) : Bool :=
  match env.cudaError with
  | some _ => false
  | none =>
    match env.loader with
    | Except.error _ => false
    | Except.ok ld =>
      match checkLimits cfg ld.n_instances env.memlockSoft with
      | some _ => false
      | none =>
        match constructEngine env with
        | Except.error _ => false
        | Except.ok _ => true

/-- An event's join outcome; worker actions carry none. -/
def evJoinOk : Ev → Bool
  | Ev.estart j _ => j
  | Ev.estop j => j
  | Ev.estep _ => true

/-- Every `start`/`stop` in the schedule saw its bounded join complete
(no worker ever outlived the 30-second join timeout). -/
def promptJoins (es : List Ev) : Prop := ∀ e ∈ es, evJoinOk e = true

instance (es : List Ev) : Decidable (promptJoins es) :=
  inferInstanceAs (Decidable (∀ e ∈ es, evJoinOk e = true))

/-- A step result that keeps the run going (non-empty embedding backlog). -/
def rBusy : StepRes :=
  { insertion_completed := false, n_insertion_ops := 1, n_update_ops := 0,
    n_embedding_ops := 0, insertion_time := 0, update_time := 0,
    embedding_time := 0, wall_time := 0, insertion_queue_size := 0,
    update_queue_size := 0, embedding_queue_level_sizes := [3], emb := [] }

/-- A step result reporting insertion completed and empty embedding
backlogs but a non-empty insertion backlog. -/
def rDoneBacklog : StepRes :=
  { insertion_completed := true, n_insertion_ops := 2, n_update_ops := 0,
    n_embedding_ops := 0, insertion_time := 0, update_time := 0,
    embedding_time := 0, wall_time := 0, insertion_queue_size := 5,
    update_queue_size := 0, embedding_queue_level_sizes := [], emb := [] }

/-- Spawn parameters of the first (to-be-superseded) run. -/
def sp0 : SpawnEnv :=
  { n_instances := 4, n_features := 2, labels := none, results := [rBusy] }

/-- Spawn parameters of the superseding run. -/
def sp1 : SpawnEnv :=
  { n_instances := 4, n_features := 2, labels := none, results := [] }

/-- Schedule: start run 0; its worker builds the engine and enters a long
engine step; `stop` times out (the worker is mid-step, so the 30 s join
expires and the handle is force-closed); a new `start` installs queue 1
and spawns worker 1; the surviving worker 0 then finishes its step. -/
def c1tr : List Ev :=
  [Ev.estart true sp0, Ev.estep 0, Ev.estep 0, Ev.estop false,
   Ev.estart true sp1, Ev.estep 0]

/-- `c1tr` continued until the surviving worker 0 exits (observing its
stop event, running its `finally` block). -/
def c2tr : List Ev := c1tr ++ [Ev.estep 0, Ev.estep 0]

/-- A `MemoryError` with empty text: a transient-allocation failure whose
formatted diagnostic lacks the CUDA signature. -/
def memErr : Exc := { cls := "MemoryError", msg := "", isMemErr := true }

/-- Loader facts shared by the concrete environments. -/
def ldSmall : LoaderInfo := { n_instances := 4, n_features := 2, y := none }

/-- Environment where both construction attempts fail with `MemoryError`. -/
def envMem : Env :=
  { cudaError := none, loader := Except.ok ldSmall, memlockSoft := none,
    ctor1 := some memErr, ctor2 := some memErr, steps := [], stopFlags := [] }

/-- Environment of a run whose single step reports completion while its
insertion backlog still holds five items. -/
def envDoneBacklog : Env :=
  { cudaError := none, loader := Except.ok ldSmall, memlockSoft := none,
    ctor1 := none, ctor2 := none, steps := [Except.ok rDoneBacklog],
    stopFlags := [] }

/-- A config with the default `n_neighbors`. -/
def cfg15 : Config := { n_neighbors := some 15 }

/-- Byte offset of field `i` in a packed format (sum of the sizes of the
fields before it). -/
def offBefore (fs : List FieldVal) (i : Nat) : Nat := ((fs.take i).map fsize).sum

/-- The trailing ten `u64` level fields of the server header. -/
def levelsHeaderPart (m : EmbMsg) : List FieldVal :=
  (padTruncLevels m.embedding_queue_levels).map (fun v => FieldVal.u64 v)

/-- Steps remaining before a stop-signalled worker reaches `dead`. -/
def phaseRank : WPhase → Nat
  | WPhase.dead => 0
  | WPhase.final => 1
  | WPhase.loopTop => 2
  | WPhase.inStep _ => 3
  | WPhase.init => 4

/-- The inductive invariant of the session broker under prompt joins:
worker/queue allocation is paired, the stop event matches the thread, the
installed queue belongs to the current thread, at most the current thread
is alive, every queue only holds messages of its own run, and every engine
handle is tracked by its creating worker and closed exactly when that
worker has exited. -/
structure Inv (g : GState) : Prop where
  len_eq : g.workers.length = g.queues.length
  ts_eq : g.threadStop = g.thread
  tq : ∀ w, g.thread = some w → g.queueRef = some w
  single : ∀ w, aliveW g w = true → g.thread = some w
  qpure : ∀ q en, en ∈ g.queues.getD q [] → en.wid = q
  creator_model : ∀ (mi : Nat) (rec : MRec), g.models[mi]? = some rec →
    ∃ wk : TWorker, g.workers[rec.creator]? = some wk ∧ wk.localModel = some mi
  local_creator : ∀ (w : Nat) (wk : TWorker) (mi : Nat),
    g.workers[w]? = some wk → wk.localModel = some mi →
    ∃ rec : MRec, g.models[mi]? = some rec ∧ rec.creator = w
  closed_alive : ∀ (mi : Nat) (rec : MRec), g.models[mi]? = some rec →
    (aliveW g rec.creator = true → rec.closed = 0) ∧
    (aliveW g rec.creator = false → rec.closed = 1)
  init_none : ∀ (w : Nat) (wk : TWorker), g.workers[w]? = some wk →
    wk.phase = WPhase.init → wk.localModel = none

/-- A server-side Progress message with 100 points (the spec's worked
example: header `point_count = 100`, payload 800 bytes). -/
def msg100 : EmbMsg :=
  { emb := List.replicate 100 (0x3f800000, 0x40000000), n_inserted := 7,
    n_update_ops := 3, n_embedding_ops := 4, is_done := false,
    insertion_time := 0x3dcccccd, update_time := 0, embedding_time := 0,
    wall_time := 0, insertion_queue_size := 1, update_queue_size := 2,
    embedding_queue_levels := [1, 2, 3] }

/-- A small in-range Progress message, used to instantiate the layout
theorem. -/
def msgSmall : EmbMsg :=
  { emb := [(1, 2)], n_inserted := 3, n_update_ops := 4, n_embedding_ops := 5,
    is_done := true, insertion_time := 6, update_time := 7, embedding_time := 8,
    wall_time := 9, insertion_queue_size := 10, update_queue_size := 11,
    embedding_queue_levels := [1, 2] }

/-- A construction failure without the transient-allocation signature. -/
def otherErr : Exc := { cls := "ValueError", msg := "boom", isMemErr := false }

/-- A transient failure whose text carries the CUDA OS-error signature. -/
def cudaAllocErr : Exc :=
  { cls := "RuntimeError", msg := "std::bad_alloc (cudaErrorOperatingSystem)",
    isMemErr := false }

/-- Environment whose first construction attempt fails non-transiently. -/
def envOther : Env :=
  { cudaError := none, loader := Except.ok ldSmall, memlockSoft := none,
    ctor1 := some otherErr, ctor2 := none, steps := [], stopFlags := [] }

/-- Environment failing twice with the CUDA-signatured transient error. -/
def envCuda : Env :=
  { cudaError := none, loader := Except.ok ldSmall, memlockSoft := none,
    ctor1 := some cudaAllocErr, ctor2 := some cudaAllocErr, steps := [],
    stopFlags := [] }

/-- A config with an out-of-range neighbor count. -/
def cfg0 : Config := { n_neighbors := some 0 }

/-- A benign environment: loader available, construction succeeds, no
steps supplied. -/
def envPlain : Env :=
  { cudaError := none, loader := Except.ok ldSmall, memlockSoft := none,
    ctor1 := none, ctor2 := none, steps := [], stopFlags := [] }

/-- Witness schedule: one run started, its worker builds the engine and
emits `started`, then a prompt stop joins it to completion. -/
def trGood : List Ev := [Ev.estart true sp1, Ev.estep 0, Ev.estop true]

/-- Witness schedule: one run started, one worker action taken. -/
def trW : List Ev := [Ev.estart true sp1, Ev.estep 0]


theorem leBytes_length (k : Nat) : ∀ n, (leBytes k n).length = k := by
  induction k with
  | zero => intro n; rfl
  | succ k ih => intro n; simp [leBytes, ih]

theorem valLE_leBytes (k : Nat) : ∀ n, valLE (leBytes k n) = n % 256 ^ k := by
  induction k with
  | zero => intro n; simp [leBytes, valLE, Nat.mod_one]
  | succ k ih =>
    intro n
    simp [leBytes, valLE, ih]
    rw [pow_succ']
    rw [Nat.mod_mul]

theorem fieldBytes_length (f : FieldVal) : (fieldBytes f).length = fsize f := by
  cases f <;> simp [fieldBytes, fsize, leBytes_length]

theorem valLE_fieldBytes (f : FieldVal) : valLE (fieldBytes f) = fval f := by
  cases f <;> simp [fieldBytes, fval, valLE_leBytes]

theorem readLE_here (a rest : List Nat) (k : Nat) (h : a.length = k) :
    readLE (a ++ rest) 0 k = valLE a := by
  simp [readLE, ← h, List.take_left]

theorem readLE_skip (a rest : List Nat) (n off k : Nat) (h : a.length = n) :
    readLE (a ++ rest) (n + off) k = readLE rest off k := by
  simp [readLE, ← h, List.drop_append]

theorem packFields_read (fs : List FieldVal) (rest : List Nat) :
    ∀ i f, fs[i]? = some f →
      readLE (packFields fs ++ rest) (offBefore fs i) (fsize f) = fval f := by
  induction fs with
  | nil => intro i f h; simp at h
  | cons f0 fs ih =>
    intro i f h
    cases i with
    | zero =>
      simp at h
      subst h
      have : packFields (f0 :: fs) ++ rest = fieldBytes f0 ++ (packFields fs ++ rest) := by
        simp [packFields]
      rw [this]
      show readLE _ 0 _ = _
      rw [readLE_here _ _ _ (fieldBytes_length f0), valLE_fieldBytes]
    | succ i =>
      simp at h
      have hsplit : packFields (f0 :: fs) ++ rest = fieldBytes f0 ++ (packFields fs ++ rest) := by
        simp [packFields]
      have hoff : offBefore (f0 :: fs) (i + 1) = fsize f0 + offBefore fs i := by
        simp [offBefore, List.take_succ_cons]
      rw [hsplit, hoff, readLE_skip _ _ _ _ _ (fieldBytes_length f0)]
      exact ih i f h

theorem packFields_length (fs : List FieldVal) :
    (packFields fs).length = ((fs.map fsize)).sum := by
  induction fs with
  | nil => rfl
  | cons f0 fs ih =>
    simp [packFields, fieldBytes_length]
    have : (List.map (List.length ∘ fieldBytes) fs) = List.map fsize fs := by
      apply List.map_congr_left
      intro f _
      exact fieldBytes_length f
    rw [this]

theorem padTruncLevels_length (ls : List Nat) : (padTruncLevels ls).length = 10 := by
  simp [padTruncLevels]


theorem headerFields_map_fsize (m : EmbMsg) :
    ((headerFields m).map fsize).sum = 144 := by
  simp [headerFields, fsize, List.map_map]
  have : (List.map (fsize ∘ fun v => FieldVal.u64 v) (padTruncLevels m.embedding_queue_levels)).sum
      = ((padTruncLevels m.embedding_queue_levels).map (fun _ => 8)).sum := by rfl
  rw [this]
  rw [List.map_const']
  rw [List.sum_replicate]
  rw [padTruncLevels_length]
  rfl

theorem encodeFrame_length (m : EmbMsg) :
    (encodeFrame m).length = 144 + 8 * m.emb.length := by
  simp [encodeFrame, packFields_length, headerFields_map_fsize, payloadBytes]
  have : (List.map (List.length ∘ fun p : Nat × Nat => leBytes 4 p.1 ++ leBytes 4 p.2) m.emb)
      = List.map (fun _ => 8) m.emb := by
    apply List.map_congr_left
    intro p _
    simp [leBytes_length]
  rw [this, List.map_const', List.sum_replicate]
  simp [Nat.mul_comm]


theorem headerFields_get_level (m : EmbMsg) (j : Nat) (hj : j < 10) :
    (headerFields m)[11 + j]? =
      some (FieldVal.u64 ((padTruncLevels m.embedding_queue_levels).getD j 0)) := by
  have hsplit : headerFields m =
      [FieldVal.u64 m.n_inserted, FieldVal.u32 m.emb.length,
       FieldVal.u32 (if m.is_done then 1 else 0), FieldVal.u64 m.n_update_ops,
       FieldVal.u64 m.n_embedding_ops, FieldVal.f32 m.insertion_time,
       FieldVal.f32 m.update_time, FieldVal.f32 m.embedding_time,
       FieldVal.f32 m.wall_time, FieldVal.u64 m.insertion_queue_size,
       FieldVal.u64 m.update_queue_size] ++ levelsHeaderPart m := rfl
  rw [hsplit]
  rw [List.getElem?_append_right (by simp)]
  simp [levelsHeaderPart]
  have hjlen : j < (padTruncLevels m.embedding_queue_levels).length := by
    rw [padTruncLevels_length]; exact hj
  rw [List.getElem?_eq_getElem hjlen]
  simp [List.getD_eq_getElem?_getD, List.getElem?_eq_getElem hjlen]

theorem offBefore_level (m : EmbMsg) (j : Nat) (hj : j < 10) :
    offBefore (headerFields m) (11 + j) = 64 + 8 * j := by
  have hsplit : headerFields m =
      [FieldVal.u64 m.n_inserted, FieldVal.u32 m.emb.length,
       FieldVal.u32 (if m.is_done then 1 else 0), FieldVal.u64 m.n_update_ops,
       FieldVal.u64 m.n_embedding_ops, FieldVal.f32 m.insertion_time,
       FieldVal.f32 m.update_time, FieldVal.f32 m.embedding_time,
       FieldVal.f32 m.wall_time, FieldVal.u64 m.insertion_queue_size,
       FieldVal.u64 m.update_queue_size] ++ levelsHeaderPart m := rfl
  unfold offBefore
  rw [hsplit]
  rw [show (11 + j) = [FieldVal.u64 m.n_inserted, FieldVal.u32 m.emb.length,
       FieldVal.u32 (if m.is_done then 1 else 0), FieldVal.u64 m.n_update_ops,
       FieldVal.u64 m.n_embedding_ops, FieldVal.f32 m.insertion_time,
       FieldVal.f32 m.update_time, FieldVal.f32 m.embedding_time,
       FieldVal.f32 m.wall_time, FieldVal.u64 m.insertion_queue_size,
       FieldVal.u64 m.update_queue_size].length + j by simp]
  rw [List.take_append]
  simp [fsize, levelsHeaderPart, List.map_take, List.map_map]
  have : (List.map (fsize ∘ fun v => FieldVal.u64 v) (padTruncLevels m.embedding_queue_levels))
      = List.map (fun _ => 8) (padTruncLevels m.embedding_queue_levels) := rfl
  rw [this, List.map_const', List.take_replicate, List.sum_replicate]
  rw [padTruncLevels_length]
  simp [smul_eq_mul]
  omega


theorem drop_leBytes (a b : Nat) : ∀ n, (leBytes (a + b) n).drop a = leBytes b (n / 256 ^ a) := by
  induction a with
  | zero => intro n; simp
  | succ a ih =>
    intro n
    rw [show a + 1 + b = (a + b) + 1 by omega]
    simp only [leBytes, List.drop_succ_cons]
    rw [ih]
    congr 1
    rw [Nat.div_div_eq_div_mul]
    rw [pow_succ']

theorem packFields_header_length (m : EmbMsg) :
    (packFields (headerFields m)).length = 144 := by
  rw [packFields_length, headerFields_map_fsize]

theorem client_npoints (m : EmbMsg) :
    readLE (encodeFrame m) 4 4 = m.n_inserted / 2 ^ 32 % 2 ^ 32 := by
  have hsplit : encodeFrame m =
      leBytes 8 m.n_inserted ++
        (packFields (headerFields m).tail ++ payloadBytes m) := by
    simp [encodeFrame, headerFields, packFields, fieldBytes]
  rw [hsplit]
  unfold readLE
  rw [List.drop_append_of_le_length (by simp [leBytes_length])]
  rw [show (8 : Nat) = 4 + 4 by rfl, drop_leBytes]
  rw [List.take_append_of_le_length (by simp [leBytes_length])]
  rw [List.take_of_length_le (by simp [leBytes_length])]
  rw [valLE_leBytes]
  norm_num

theorem c5_universal (m : EmbMsg) : parseOk (parseBinaryFrame (encodeFrame m)) = false := by
  have hlen := encodeFrame_length m
  have hnp := client_npoints m
  unfold parseBinaryFrame
  rw [if_neg (by rw [hlen]; unfold CLIENT_HEADER_SIZE; omega)]
  unfold parseOk
  rw [hlen, hnp]
  have hne : 144 + 8 * m.emb.length - CLIENT_HEADER_SIZE ≠
      m.n_inserted / 2 ^ 32 % 2 ^ 32 * 2 * 4 := by
    unfold CLIENT_HEADER_SIZE
    omega
  simpa using hne


theorem payloadBytes_read (pts : List (Nat × Nat)) :
    ∀ j p, pts[j]? = some p →
      readLE ((pts.map (fun q => leBytes 4 q.1 ++ leBytes 4 q.2)).flatten) (8 * j) 4
          = p.1 % 2 ^ 32 ∧
      readLE ((pts.map (fun q => leBytes 4 q.1 ++ leBytes 4 q.2)).flatten) (8 * j + 4) 4
          = p.2 % 2 ^ 32 := by
  induction pts with
  | nil => intro j p h; simp at h
  | cons q pts ih =>
    intro j p h
    cases j with
    | zero =>
      simp at h
      subst h
      constructor
      · have hs : ((q :: pts).map (fun q => leBytes 4 q.1 ++ leBytes 4 q.2)).flatten =
            leBytes 4 q.1 ++ (leBytes 4 q.2 ++
              (pts.map (fun q => leBytes 4 q.1 ++ leBytes 4 q.2)).flatten) := by
          simp
        rw [hs]
        show readLE _ 0 _ = _
        rw [readLE_here _ _ _ (leBytes_length 4 _), valLE_leBytes]
        norm_num
      · have hs : ((q :: pts).map (fun q => leBytes 4 q.1 ++ leBytes 4 q.2)).flatten =
            leBytes 4 q.1 ++ (leBytes 4 q.2 ++
              (pts.map (fun q => leBytes 4 q.1 ++ leBytes 4 q.2)).flatten) := by
          simp
        rw [hs]
        show readLE _ (4 + 0) _ = _
        rw [readLE_skip _ _ _ _ _ (leBytes_length 4 _)]
        rw [readLE_here _ _ _ (leBytes_length 4 _), valLE_leBytes]
        norm_num
    | succ j =>
      simp at h
      have hs : ((q :: pts).map (fun q => leBytes 4 q.1 ++ leBytes 4 q.2)).flatten =
          (leBytes 4 q.1 ++ leBytes 4 q.2) ++
            (pts.map (fun q => leBytes 4 q.1 ++ leBytes 4 q.2)).flatten := by
        simp
      have hlen8 : (leBytes 4 q.1 ++ leBytes 4 q.2).length = 8 := by
        simp [leBytes_length]
      constructor
      · rw [hs, show 8 * (j + 1) = 8 + 8 * j by ring,
            readLE_skip _ _ _ _ _ hlen8]
        exact (ih j p h).1
      · rw [hs, show 8 * (j + 1) + 4 = 8 + (8 * j + 4) by ring,
            readLE_skip _ _ _ _ _ hlen8]
        exact (ih j p h).2

theorem frame_point_read (m : EmbMsg) (j : Nat) (p : Nat × Nat)
    (h : m.emb[j]? = some p) :
    readLE (encodeFrame m) (144 + 8 * j) 4 = p.1 % 2 ^ 32 ∧
    readLE (encodeFrame m) (144 + (8 * j + 4)) 4 = p.2 % 2 ^ 32 := by
  have hsplit : encodeFrame m = packFields (headerFields m) ++ payloadBytes m := rfl
  rw [hsplit]
  rw [readLE_skip _ _ _ _ _ (packFields_header_length m),
      readLE_skip _ _ _ _ _ (packFields_header_length m)]
  exact payloadBytes_read m.emb j p h


theorem header_read (m : EmbMsg) (i o : Nat) (f : FieldVal)
    (hget : (headerFields m)[i]? = some f)
    (hoff : offBefore (headerFields m) i = o) :
    readLE (encodeFrame m) o (fsize f) = fval f := by
  have := packFields_read (headerFields m) (payloadBytes m) i f hget
  rw [hoff] at this
  exact this

theorem padTruncLevels_mem_bound (ls : List Nat) (hb : ∀ v ∈ ls, v < 2 ^ 64) :
    ∀ v ∈ padTruncLevels ls, v < 2 ^ 64 := by
  intro v hv
  unfold padTruncLevels at hv
  rcases List.mem_append.1 hv with h | h
  · exact hb v (List.mem_of_mem_take h)
  · have := List.eq_of_mem_replicate h
    subst this
    positivity

/-- Claim C6: the binary embedding frame is a 144-byte little-endian
header followed by the 8-byte-per-point payload, with every field at the
offset documented for `<QIIQQffffQQ10Q>`: n_inserted at 0 (u64), point
count at 8 (u32), is_done at 12 (u32), the op counters at 16 and 24
(u64), the four float32 times at 32-47, the two queue sizes at 48 and 56
(u64), the ten u64 queue levels at 64-143 (truncated to ten then
zero-padded), and the flat x,y float32 pairs from byte 144 on. -/
theorem encode_header_layout (m : EmbMsg)
    (h1 : m.n_inserted < 2 ^ 64) (h2 : m.emb.length < 2 ^ 32)
    (h3 : m.n_update_ops < 2 ^ 64) (h4 : m.n_embedding_ops < 2 ^ 64)
    (h5 : m.insertion_time < 2 ^ 32) (h6 : m.update_time < 2 ^ 32)
    (h7 : m.embedding_time < 2 ^ 32) (h8 : m.wall_time < 2 ^ 32)
    (h9 : m.insertion_queue_size < 2 ^ 64) (h10 : m.update_queue_size < 2 ^ 64)
    (h11 : ∀ v ∈ m.embedding_queue_levels, v < 2 ^ 64)
    (h12 : ∀ p ∈ m.emb, p.1 < 2 ^ 32 ∧ p.2 < 2 ^ 32) :
    (encodeFrame m).length = 144 + 8 * m.emb.length ∧
    readLE (encodeFrame m) 0 8 = m.n_inserted ∧
    readLE (encodeFrame m) 8 4 = m.emb.length ∧
    readLE (encodeFrame m) 12 4 = (if m.is_done then 1 else 0) ∧
    readLE (encodeFrame m) 16 8 = m.n_update_ops ∧
    readLE (encodeFrame m) 24 8 = m.n_embedding_ops ∧
    readLE (encodeFrame m) 32 4 = m.insertion_time ∧
    readLE (encodeFrame m) 36 4 = m.update_time ∧
    readLE (encodeFrame m) 40 4 = m.embedding_time ∧
    readLE (encodeFrame m) 44 4 = m.wall_time ∧
    readLE (encodeFrame m) 48 8 = m.insertion_queue_size ∧
    readLE (encodeFrame m) 56 8 = m.update_queue_size ∧
    (padTruncLevels m.embedding_queue_levels).length = 10 ∧
    (10 ≤ m.embedding_queue_levels.length →
      padTruncLevels m.embedding_queue_levels = m.embedding_queue_levels.take 10) ∧
    (m.embedding_queue_levels.length ≤ 10 →
      padTruncLevels m.embedding_queue_levels =
        m.embedding_queue_levels ++
          List.replicate (10 - m.embedding_queue_levels.length) 0) ∧
    (∀ j, j < 10 →
      readLE (encodeFrame m) (64 + 8 * j) 8 =
        (padTruncLevels m.embedding_queue_levels).getD j 0) ∧
    (encodeFrame m).drop 144 = payloadBytes m ∧
    (payloadBytes m).length = m.emb.length * 2 * 4 ∧
    (∀ j p, m.emb[j]? = some p →
      readLE (encodeFrame m) (144 + 8 * j) 4 = p.1 ∧
      readLE (encodeFrame m) (144 + (8 * j + 4)) 4 = p.2) := by
  refine ⟨encodeFrame_length m, ?_, ?_, ?_, ?_, ?_, ?_, ?_, ?_, ?_, ?_, ?_,
    padTruncLevels_length _, ?_, ?_, ?_, ?_, ?_, ?_⟩
  · have h := header_read m 0 0 (FieldVal.u64 m.n_inserted)
      (by simp [headerFields]) (by simp [offBefore])
    simp only [fsize, fval] at h
    rw [h, Nat.mod_eq_of_lt h1]
  · have h := header_read m 1 8 (FieldVal.u32 m.emb.length)
      (by simp [headerFields]) (by simp [offBefore, headerFields, fsize])
    simp only [fsize, fval] at h
    rw [h, Nat.mod_eq_of_lt h2]
  · have h := header_read m 2 12 (FieldVal.u32 (if m.is_done then 1 else 0))
      (by simp [headerFields]) (by simp [offBefore, headerFields, fsize])
    simp only [fsize, fval] at h
    have hlt : (if m.is_done then 1 else 0) < 2 ^ 32 := by
      split <;> norm_num
    rw [h, Nat.mod_eq_of_lt hlt]
  · have h := header_read m 3 16 (FieldVal.u64 m.n_update_ops)
      (by simp [headerFields]) (by simp [offBefore, headerFields, fsize])
    simp only [fsize, fval] at h
    rw [h, Nat.mod_eq_of_lt h3]
  · have h := header_read m 4 24 (FieldVal.u64 m.n_embedding_ops)
      (by simp [headerFields]) (by simp [offBefore, headerFields, fsize])
    simp only [fsize, fval] at h
    rw [h, Nat.mod_eq_of_lt h4]
  · have h := header_read m 5 32 (FieldVal.f32 m.insertion_time)
      (by simp [headerFields]) (by simp [offBefore, headerFields, fsize])
    simp only [fsize, fval] at h
    rw [h, Nat.mod_eq_of_lt h5]
  · have h := header_read m 6 36 (FieldVal.f32 m.update_time)
      (by simp [headerFields]) (by simp [offBefore, headerFields, fsize])
    simp only [fsize, fval] at h
    rw [h, Nat.mod_eq_of_lt h6]
  · have h := header_read m 7 40 (FieldVal.f32 m.embedding_time)
      (by simp [headerFields]) (by simp [offBefore, headerFields, fsize])
    simp only [fsize, fval] at h
    rw [h, Nat.mod_eq_of_lt h7]
  · have h := header_read m 8 44 (FieldVal.f32 m.wall_time)
      (by simp [headerFields]) (by simp [offBefore, headerFields, fsize])
    simp only [fsize, fval] at h
    rw [h, Nat.mod_eq_of_lt h8]
  · have h := header_read m 9 48 (FieldVal.u64 m.insertion_queue_size)
      (by simp [headerFields]) (by simp [offBefore, headerFields, fsize])
    simp only [fsize, fval] at h
    rw [h, Nat.mod_eq_of_lt h9]
  · have h := header_read m 10 56 (FieldVal.u64 m.update_queue_size)
      (by simp [headerFields]) (by simp [offBefore, headerFields, fsize])
    simp only [fsize, fval] at h
    rw [h, Nat.mod_eq_of_lt h10]
  · intro hge
    simp [padTruncLevels, List.length_take, Nat.min_eq_left hge]
  · intro hle
    simp only [padTruncLevels]
    rw [List.take_of_length_le hle]
  · intro j hj
    have hread := header_read m (11 + j) (64 + 8 * j) _
      (headerFields_get_level m j hj) (offBefore_level m j hj)
    simp only [fsize, fval] at hread
    have hv : (padTruncLevels m.embedding_queue_levels).getD j 0 < 2 ^ 64 := by
      have hjl : j < (padTruncLevels m.embedding_queue_levels).length := by
        rw [padTruncLevels_length]; exact hj
      rw [List.getD_eq_getElem?_getD, List.getElem?_eq_getElem hjl]
      exact padTruncLevels_mem_bound _ h11 _ (List.getElem_mem hjl)
    rw [hread, Nat.mod_eq_of_lt hv]
  · have hfr : encodeFrame m = packFields (headerFields m) ++ payloadBytes m := rfl
    rw [hfr]
    rw [show (144 : Nat) = (packFields (headerFields m)).length + 0 by
      rw [packFields_header_length]]
    rw [List.drop_append]
    rfl
  · unfold payloadBytes
    have hmap : (List.map (List.length ∘ fun p : Nat × Nat => leBytes 4 p.1 ++ leBytes 4 p.2) m.emb)
        = List.map (fun _ => 8) m.emb := by
      apply List.map_congr_left
      intro p _
      simp [leBytes_length]
    simp only [List.length_flatten, List.map_map]
    rw [hmap, List.map_const', List.sum_replicate]
    simp [smul_eq_mul]
    ring
  · intro j p hjp
    have h1p := (frame_point_read m j p hjp).1
    have h2p := (frame_point_read m j p hjp).2
    have hmem := List.getElem?_mem hjp
    constructor
    · rw [h1p, Nat.mod_eq_of_lt (h12 p hmem).1]
    · rw [h2p, Nat.mod_eq_of_lt (h12 p hmem).2]


/-- Claim C10: `get_next_chunk` returns the next `min(chunk_size,
remaining)` rows starting at the cursor, advances the cursor by exactly
the number of rows returned (never past the end), leaves the data
unchanged, and returns the empty chunk once the cursor is at the end. -/
theorem getNextChunk_spec {α : Type} (l : NpyDataLoader α) (cs : Nat)
    (h : l.idx ≤ l.X.length) :
    ((getNextChunk l cs).1).length = min cs (l.X.length - l.idx) ∧
    (getNextChunk l cs).2.idx = l.idx + ((getNextChunk l cs).1).length ∧
    (getNextChunk l cs).2.idx ≤ l.X.length ∧
    (getNextChunk l cs).2.X = l.X ∧
    (∀ i, i < ((getNextChunk l cs).1).length →
      ((getNextChunk l cs).1)[i]? = l.X[l.idx + i]?) ∧
    (l.idx = l.X.length → (getNextChunk l cs).1 = []) := by
  have hlen : ((getNextChunk l cs).1).length = min cs (l.X.length - l.idx) := by
    simp [getNextChunk]
  refine ⟨hlen, by simp [getNextChunk, hlen], by simp [getNextChunk]; omega,
    rfl, ?_, ?_⟩
  · intro i hi
    rw [hlen] at hi
    show ((l.X.drop l.idx).take (min cs (l.X.length - l.idx)))[i]? = _
    rw [List.getElem?_take_of_lt (by omega)]
    rw [List.getElem?_drop]
  · intro hend
    simp [getNextChunk, hend]


theorem loopRun_msgs_embedding (steps : List (Except Exc StepRes)) :
    ∀ fs aI m, m ∈ (loopRun fs steps aI).1 → ∃ em, m = Msg.embedding em := by
  induction steps with
  | nil =>
    intro fs aI m hm
    unfold loopRun at hm
    split at hm <;> simp_all
  | cons s rest ih =>
    intro fs aI m hm
    unfold loopRun at hm
    split at hm
    · simp at hm
    · cases s with
      | error e => simp at hm
      | ok r =>
        simp only at hm
        split at hm
        · simp at hm
          exact ⟨_, hm⟩
        · simp only at hm
          rcases List.mem_cons.1 hm with h | h
          · exact ⟨_, h⟩
          · exact ih fs.tail _ m h

theorem finishOk_protocol (pre : List Act) (b : Bool) (k : Nat)
    (hpre : pre.count Act.close = 0) :
    (finishOk pre b k).acts.getLast? = some (Act.put Msg.done) ∧
    (finishOk pre b k).acts.count Act.close = (if b then 1 else 0) ∧
    msgsOf (finishOk pre b k).acts = msgsOf pre ++ [Msg.done] := by
  refine ⟨?_, ?_, ?_⟩
  · show ((pre ++ _) ++ _).getLast? = _
    rw [show (pre ++ (if b then [Act.close] else []) ++ [Act.put Msg.done])
        = (pre ++ (if b then [Act.close] else [])) ++ [Act.put Msg.done] by simp]
    exact List.getLast?_concat _
  · show (pre ++ _ ++ _).count _ = _
    simp [List.count_append, hpre]
    split <;> simp
  · show msgsOf (pre ++ _ ++ _) = _
    unfold msgsOf
    simp [List.filterMap_append]

theorem finishErr_protocol (pre : List Act) (b : Bool) (k : Nat) (e : Exc)
    (hpre : pre.count Act.close = 0) :
    (finishErr pre b k e).acts.getLast? = some (Act.put Msg.done) ∧
    (finishErr pre b k e).acts.count Act.close = (if b then 1 else 0) ∧
    msgsOf (finishErr pre b k e).acts =
      msgsOf pre ++ [Msg.error (excText e) (excTrace e), Msg.done] := by
  refine ⟨?_, ?_, ?_⟩
  · show ((pre ++ _ ++ _) ++ _).getLast? = _
    rw [show (pre ++ [Act.put (Msg.error (excText e) (excTrace e))] ++
          (if b then [Act.close] else []) ++ [Act.put Msg.done])
        = (pre ++ [Act.put (Msg.error (excText e) (excTrace e))] ++
          (if b then [Act.close] else [])) ++ [Act.put Msg.done] by simp]
    exact List.getLast?_concat _
  · show (pre ++ _ ++ _ ++ _).count _ = _
    simp [List.count_append, hpre]
    split <;> simp
  · show msgsOf (pre ++ _ ++ _ ++ _) = _
    unfold msgsOf
    simp [List.filterMap_append]

theorem count_close_map_put (xs : List Msg) : (xs.map Act.put).count Act.close = 0 := by
  rw [List.count_eq_zero]
  simp

theorem msgsOf_map_put (xs : List Msg) : msgsOf (xs.map Act.put) = xs := by
  unfold msgsOf
  induction xs with
  | nil => rfl
  | cons x xs ih => simp_all [msgsOf]


theorem protocolErr (pre : List Act) (b : Bool) (k : Nat) (e : Exc)
    (hpre : pre.count Act.close = 0)
    (hmsgs : ∀ m ∈ msgsOf pre, isDoneMsg m = false ∧ isErrMsg m = false) :
    (finishErr pre b k e).acts.getLast? = some (Act.put Msg.done) ∧
    (finishErr pre b k e).acts.count Act.close ≤ 1 ∧
    (b = true → (finishErr pre b k e).acts.count Act.close = 1) ∧
    ∃ pm, (∀ m ∈ pm, isDoneMsg m = false ∧ isErrMsg m = false) ∧
      msgsOf (finishErr pre b k e).acts =
        pm ++ [Msg.error (excText e) (excTrace e), Msg.done] := by
  obtain ⟨hl, hcnt, hmsg⟩ := finishErr_protocol pre b k e hpre
  refine ⟨hl, by rw [hcnt]; split <;> simp, by intro hb; rw [hcnt, hb]; rfl,
    msgsOf pre, hmsgs, by rw [hmsg]⟩

theorem protocolOk (pre : List Act) (b : Bool) (k : Nat)
    (hpre : pre.count Act.close = 0)
    (hmsgs : ∀ m ∈ msgsOf pre, isDoneMsg m = false ∧ isErrMsg m = false) :
    (finishOk pre b k).acts.getLast? = some (Act.put Msg.done) ∧
    (finishOk pre b k).acts.count Act.close ≤ 1 ∧
    (b = true → (finishOk pre b k).acts.count Act.close = 1) ∧
    ∃ pm, (∀ m ∈ pm, isDoneMsg m = false ∧ isErrMsg m = false) ∧
      msgsOf (finishOk pre b k).acts = pm ++ [Msg.done] := by
  obtain ⟨hl, hcnt, hmsg⟩ := finishOk_protocol pre b k hpre
  refine ⟨hl, by rw [hcnt]; split <;> simp, by intro hb; rw [hcnt, hb]; rfl,
    msgsOf pre, hmsgs, by rw [hmsg]⟩

theorem loop_pre_ok (ms : List Msg) (hemb : ∀ m ∈ ms, ∃ em, m = Msg.embedding em) :
    (Act.put (Msg.started a b c) :: ms.map Act.put).count Act.close = 0 ∧
    (∀ m ∈ msgsOf (Act.put (Msg.started a b c) :: ms.map Act.put),
      isDoneMsg m = false ∧ isErrMsg m = false) := by
  constructor
  · show List.count _ (_ :: _) = 0
    rw [List.count_cons]
    simp [count_close_map_put]
  · intro m hm
    have : msgsOf (Act.put (Msg.started a b c) :: ms.map Act.put)
        = Msg.started a b c :: ms := by
      show msgsOf (([Act.put (Msg.started a b c)] ++ ms.map Act.put)) = _
      unfold msgsOf
      rw [List.filterMap_append]
      show _ ++ msgsOf (ms.map Act.put) = _
      rw [msgsOf_map_put]
      rfl
    rw [this] at hm
    rcases List.mem_cons.1 hm with h | h
    · subst h; exact ⟨rfl, rfl⟩
    · obtain ⟨em, hem⟩ := hemb m h
      subst hem
      exact ⟨rfl, rfl⟩

/-- Claim C3: whatever happens inside a run that terminates, the worker's
finally-block protocol holds: the very last queue action is `put done`; the
engine handle is closed at most once, and exactly once when an engine was
built; the message stream is some prefix free of `done`/`error` followed,
when the body completes without an exception, by `done` alone; and when
the body fails with exception `e`, by exactly one `error` — whose text is
the stripped exception message and whose trace field is "Class: message"
for that very exception — immediately before the final `done`. -/
theorem worker_terminal_protocol (cfg : Config) (env : Env)
    (hterm : (runWorker cfg env).ranOut = false) :
    (runWorker cfg env).acts.getLast? = some (Act.put Msg.done) ∧
    (runWorker cfg env).acts.count Act.close ≤ 1 ∧
    (engineBuilt cfg env = true → (runWorker cfg env).acts.count Act.close = 1) ∧
    ∃ pre, (∀ m ∈ pre, isDoneMsg m = false ∧ isErrMsg m = false) ∧
      (runErr cfg env = none →
        msgsOf (runWorker cfg env).acts = pre ++ [Msg.done]) ∧
      (∀ e, runErr cfg env = some e →
        msgsOf (runWorker cfg env).acts =
          pre ++ [Msg.error (excText e) (excTrace e), Msg.done]) := by
  rcases hc : env.cudaError with _ | e
  case some =>
    have hrw : runWorker cfg env = finishErr [] false 0 e := by
      simp only [runWorker, hc]
    have hre : runErr cfg env = some e := by
      simp only [runErr, hc]
    have hb : engineBuilt cfg env = false := by
      simp only [engineBuilt, hc]
    obtain ⟨h1, h2, h3, pm, hpm, hmsg⟩ := protocolErr [] false 0 e rfl (by simp [msgsOf])
    rw [hrw, hb]
    refine ⟨h1, h2, h3, pm, hpm, ?_, ?_⟩
    · intro hnone
      rw [hre] at hnone
      exact Option.noConfusion hnone
    · intro e2 hsome
      rw [hre] at hsome
      cases Option.some.inj hsome
      exact hmsg
  case none =>
  rcases hl : env.loader with e | ld
  case error =>
    have hrw : runWorker cfg env = finishErr [] false 0 e := by
      simp only [runWorker, hc, hl]
    have hre : runErr cfg env = some e := by
      simp only [runErr, hc, hl]
    have hb : engineBuilt cfg env = false := by
      simp only [engineBuilt, hc, hl]
    obtain ⟨h1, h2, h3, pm, hpm, hmsg⟩ := protocolErr [] false 0 e rfl (by simp [msgsOf])
    rw [hrw, hb]
    refine ⟨h1, h2, h3, pm, hpm, ?_, ?_⟩
    · intro hnone
      rw [hre] at hnone
      exact Option.noConfusion hnone
    · intro e2 hsome
      rw [hre] at hsome
      cases Option.some.inj hsome
      exact hmsg
  case ok =>
  rcases hk : checkLimits cfg ld.n_instances env.memlockSoft with _ | e
  case some =>
    have hrw : runWorker cfg env = finishErr [] false 0 e := by
      simp only [runWorker, hc, hl, hk]
    have hre : runErr cfg env = some e := by
      simp only [runErr, hc, hl, hk]
    have hb : engineBuilt cfg env = false := by
      simp only [engineBuilt, hc, hl, hk]
    obtain ⟨h1, h2, h3, pm, hpm, hmsg⟩ := protocolErr [] false 0 e rfl (by simp [msgsOf])
    rw [hrw, hb]
    refine ⟨h1, h2, h3, pm, hpm, ?_, ?_⟩
    · intro hnone
      rw [hre] at hnone
      exact Option.noConfusion hnone
    · intro e2 hsome
      rw [hre] at hsome
      cases Option.some.inj hsome
      exact hmsg
  case none =>
  rcases hce : constructEngine env with p | k
  case error =>
    obtain ⟨e, k⟩ := p
    have hrw : runWorker cfg env = finishErr [] false k e := by
      simp only [runWorker, hc, hl, hk, hce]
    have hre : runErr cfg env = some e := by
      simp only [runErr, hc, hl, hk, hce]
    have hb : engineBuilt cfg env = false := by
      simp only [engineBuilt, hc, hl, hk, hce]
    obtain ⟨h1, h2, h3, pm, hpm, hmsg⟩ := protocolErr [] false k e rfl (by simp [msgsOf])
    rw [hrw, hb]
    refine ⟨h1, h2, h3, pm, hpm, ?_, ?_⟩
    · intro hnone
      rw [hre] at hnone
      exact Option.noConfusion hnone
    · intro e2 hsome
      rw [hre] at hsome
      cases Option.some.inj hsome
      exact hmsg
  case ok =>
  rcases hlr : loopRun env.stopFlags env.steps false with ⟨ms, ex⟩
  have hemb : ∀ m ∈ ms, ∃ em, m = Msg.embedding em := by
    intro m hm
    exact loopRun_msgs_embedding env.steps env.stopFlags false m (by rw [hlr]; exact hm)
  have hb : engineBuilt cfg env = true := by
    simp only [engineBuilt, hc, hl, hk, hce]
  cases ex with
  | errExit e =>
    have hrw : runWorker cfg env = finishErr
        (Act.put (Msg.started ld.n_instances ld.n_features (classLabelsOf ld)) ::
          ms.map Act.put) true k e := by
      simp only [runWorker, hc, hl, hk, hce, hlr]
    have hre : runErr cfg env = some e := by
      simp only [runErr, hc, hl, hk, hce, hlr]
    obtain ⟨hp1, hp2⟩ := loop_pre_ok (a := ld.n_instances) (b := ld.n_features)
      (c := classLabelsOf ld) ms hemb
    obtain ⟨h1, h2, h3, pm, hpm, hmsg⟩ := protocolErr _ true k e hp1 hp2
    rw [hrw, hb]
    refine ⟨h1, h2, h3, pm, hpm, ?_, ?_⟩
    · intro hnone
      rw [hre] at hnone
      exact Option.noConfusion hnone
    · intro e2 hsome
      rw [hre] at hsome
      cases Option.some.inj hsome
      exact hmsg
  | fuelOut =>
    have hrw : (runWorker cfg env).ranOut = true := by
      simp only [runWorker, hc, hl, hk, hce, hlr]
    rw [hrw] at hterm
    simp at hterm
  | doneExit =>
    have hrw : runWorker cfg env = finishOk
        (Act.put (Msg.started ld.n_instances ld.n_features (classLabelsOf ld)) ::
          ms.map Act.put) true k := by
      simp only [runWorker, hc, hl, hk, hce, hlr]
    have hre : runErr cfg env = none := by
      simp only [runErr, hc, hl, hk, hce, hlr]
    obtain ⟨hp1, hp2⟩ := loop_pre_ok (a := ld.n_instances) (b := ld.n_features)
      (c := classLabelsOf ld) ms hemb
    obtain ⟨h1, h2, h3, pm, hpm, hmsg⟩ := protocolOk _ true k hp1 hp2
    rw [hrw, hb]
    refine ⟨h1, h2, h3, pm, hpm, ?_, ?_⟩
    · intro _
      exact hmsg
    · intro e2 hsome
      rw [hre] at hsome
      exact Option.noConfusion hsome
  | stopExit =>
    have hrw : runWorker cfg env = finishOk
        (Act.put (Msg.started ld.n_instances ld.n_features (classLabelsOf ld)) ::
          ms.map Act.put) true k := by
      simp only [runWorker, hc, hl, hk, hce, hlr]
    have hre : runErr cfg env = none := by
      simp only [runErr, hc, hl, hk, hce, hlr]
    obtain ⟨hp1, hp2⟩ := loop_pre_ok (a := ld.n_instances) (b := ld.n_features)
      (c := classLabelsOf ld) ms hemb
    obtain ⟨h1, h2, h3, pm, hpm, hmsg⟩ := protocolOk _ true k hp1 hp2
    rw [hrw, hb]
    refine ⟨h1, h2, h3, pm, hpm, ?_, ?_⟩
    · intro _
      exact hmsg
    · intro e2 hsome
      rw [hre] at hsome
      exact Option.noConfusion hsome


theorem loopRun_no_stop_done (steps : List (Except Exc StepRes))
    (hok : ∀ s ∈ steps, ∃ r, s = Except.ok r) :
    ∀ aI, (loopRun [] steps aI).2 ≠ LoopExit.fuelOut →
    ∃ (pre : List EmbMsg) (last : EmbMsg),
      (loopRun [] steps aI).1 = pre.map Msg.embedding ++ [Msg.embedding last] ∧
      last.is_done = true ∧ last.embedding_queue_levels.sum = 0 ∧
      (∀ em ∈ pre, em.is_done = false) ∧
      (loopRun [] steps aI).2 = LoopExit.doneExit := by
  induction steps with
  | nil =>
    intro aI hne
    exfalso
    exact hne rfl
  | cons s rest ih =>
    intro aI hne
    obtain ⟨r, hr⟩ := hok s (List.mem_cons_self s rest)
    subst hr
    by_cases hd : (mkEmbMsg r (aI || r.insertion_completed)).is_done
    · refine ⟨[], mkEmbMsg r (aI || r.insertion_completed), ?_, hd, ?_, by simp, ?_⟩
      · simp only [loopRun, List.headD_nil, Bool.false_eq_true, if_false, hd, if_true]
        rfl
      · have hand := hd
        simp [mkEmbMsg] at hand
        show r.embedding_queue_level_sizes.sum = 0
        exact hand.2
      · simp only [loopRun, List.headD_nil, Bool.false_eq_true, if_false, hd, if_true]
    · have hrec := ih (fun s hs => hok s (List.mem_cons_of_mem _ hs))
        (aI || r.insertion_completed)
      have hne2 : (loopRun [] rest (aI || r.insertion_completed)).2 ≠ LoopExit.fuelOut := by
        intro hbad
        apply hne
        simp only [loopRun, List.headD_nil, Bool.false_eq_true, if_false, hd]
        simpa [List.tail_nil] using hbad
      obtain ⟨pre, last, h1, h2, h3, h4, h5⟩ := hrec hne2
      refine ⟨mkEmbMsg r (aI || r.insertion_completed) :: pre, last, ?_, h2, h3, ?_, ?_⟩
      · simp only [loopRun, List.headD_nil, Bool.false_eq_true, if_false, hd]
        simp [List.tail_nil, h1]
      · intro em hem
        rcases List.mem_cons.1 hem with h | h
        · subst h
          simpa using hd
        · exact h4 em h
      · simp only [loopRun, List.headD_nil, Bool.false_eq_true, if_false, hd]
        simpa [List.tail_nil] using h5


/-- Claim C4 (amended): in a run where the engine builds, no stop is
requested, and every step succeeds, if the loop terminates then the
message stream is `started`, then embedding frames, and the final
embedding frame has `is_done = true` with every embedding-queue level
zero, while earlier frames have `is_done = false`.  The exit condition
latches insertion completion and checks only that the embedding queue
levels sum to zero; contrary to the spec's wording it does not wait for
the insertion or update backlogs to drain (see the counterexample, whose
final frame reports `insertion_queue_size = 5`). -/
theorem loop_completion (cfg : Config) (env : Env) (ld : LoaderInfo) (k : Nat)
    (hc : env.cudaError = none) (hl : env.loader = Except.ok ld)
    (hk : checkLimits cfg ld.n_instances env.memlockSoft = none)
    (hce : constructEngine env = Except.ok k)
    (hstop : env.stopFlags = [])
    (hsteps : ∀ s ∈ env.steps, ∃ r, s = Except.ok r)
    (hterm : (runWorker cfg env).ranOut = false) :
    ∃ (pre : List EmbMsg) (last : EmbMsg),
      msgsOf (runWorker cfg env).acts =
        Msg.started ld.n_instances ld.n_features (classLabelsOf ld) ::
          (pre.map Msg.embedding ++ [Msg.embedding last, Msg.done]) ∧
      last.is_done = true ∧
      last.embedding_queue_levels.sum = 0 ∧
      (∀ v ∈ last.embedding_queue_levels, v = 0) ∧
      (∀ em ∈ pre, em.is_done = false) := by
  rcases hlr : loopRun env.stopFlags env.steps false with ⟨ms, ex⟩
  have hlr0 : loopRun [] env.steps false = (ms, ex) := by rw [← hstop]; exact hlr
  have hne : (loopRun [] env.steps false).2 ≠ LoopExit.fuelOut := by
    rw [hlr0]
    intro hbad
    simp only at hbad
    subst hbad
    have hbad2 : (runWorker cfg env).ranOut = true := by
      simp only [runWorker, hc, hl, hk, hce, hlr]
    rw [hbad2] at hterm
    exact Bool.noConfusion hterm
  obtain ⟨pre, last, h1, h2, h3, h4, h5⟩ := loopRun_no_stop_done env.steps hsteps false hne
  rw [hlr0] at h1 h5
  simp only at h1 h5
  subst h5
  have hrw : runWorker cfg env = finishOk
      (Act.put (Msg.started ld.n_instances ld.n_features (classLabelsOf ld)) ::
        ms.map Act.put) true k := by
    simp only [runWorker, hc, hl, hk, hce, hlr]
  have hemb : ∀ m ∈ ms, ∃ em, m = Msg.embedding em := by
    intro m hm
    exact loopRun_msgs_embedding env.steps env.stopFlags false m (by rw [hlr]; exact hm)
  obtain ⟨hp1, hp2⟩ := loop_pre_ok (a := ld.n_instances) (b := ld.n_features)
    (c := classLabelsOf ld) ms hemb
  obtain ⟨hlast, hcnt, hmsg⟩ := finishOk_protocol _ true k hp1
  refine ⟨pre, last, ?_, h2, h3, ?_, h4⟩
  · rw [hrw, hmsg]
    have hpre' : msgsOf (Act.put (Msg.started ld.n_instances ld.n_features
        (classLabelsOf ld)) :: ms.map Act.put) =
        Msg.started ld.n_instances ld.n_features (classLabelsOf ld) :: ms := by
      show msgsOf ([Act.put _] ++ ms.map Act.put) = _
      unfold msgsOf
      rw [List.filterMap_append]
      show _ ++ msgsOf (ms.map Act.put) = _
      rw [msgsOf_map_put]
      rfl
    rw [hpre', h1]
    simp
  · intro v hv
    exact (List.sum_eq_zero_iff.1 h3) v hv


/-- Claim C7: when the requested `n_neighbors` (default 15) lies outside
[1, MAX_NEIGHBORS] the preflight check rejects the run before any engine
construction: the worker emits exactly the documented ValueError message,
makes zero construction attempts, and never closes an engine handle. -/
theorem neighbors_validation (cfg : Config) (env : Env) (ld : LoaderInfo)
    (hc : env.cudaError = none) (hl : env.loader = Except.ok ld)
    (hnn : cfgNeighbors cfg < 1 ∨ (MAX_NEIGHBORS : Int) < cfgNeighbors cfg) :
    runWorker cfg env = finishErr [] false 0
      { cls := "ValueError",
        msg := "n_neighbors must be in [1, " ++ toString MAX_NEIGHBORS ++
               "] (got " ++ toString (cfgNeighbors cfg) ++ ").",
        isMemErr := false } ∧
    (runWorker cfg env).ctorAttempts = 0 ∧
    Act.close ∉ (runWorker cfg env).acts := by
  have hcond : (decide (cfgNeighbors cfg < 1) ||
      decide (cfgNeighbors cfg > (MAX_NEIGHBORS : Int))) = true := by
    rcases hnn with h | h
    · simp [h]
    · simp [h]
  have hk : checkLimits cfg ld.n_instances env.memlockSoft = some
      { cls := "ValueError",
        msg := "n_neighbors must be in [1, " ++ toString MAX_NEIGHBORS ++
               "] (got " ++ toString (cfgNeighbors cfg) ++ ").",
        isMemErr := false } := by
    simp only [checkLimits]
    rw [hcond]
    rfl
  have hrw : runWorker cfg env = finishErr [] false 0
      { cls := "ValueError",
        msg := "n_neighbors must be in [1, " ++ toString MAX_NEIGHBORS ++
               "] (got " ++ toString (cfgNeighbors cfg) ++ ").",
        isMemErr := false } := by
    simp only [runWorker, hc, hl, hk]
  refine ⟨hrw, by rw [hrw]; rfl, by rw [hrw]; simp [finishErr, msgsOf]⟩


/-- Claim C8 (amended): a non-transient construction failure is raised
immediately after one attempt; a transient (bad_alloc-classified) failure
triggers exactly one retry for a total of two attempts; and when the retry
also fails transiently the run ends with a RuntimeError whose message is
`formatBadAllocMessage` of the second error — which appends the
`python -c` CUDA verification command only when the error text carries the
`cudaErrorOperatingSystem`/`OS call failed` signature, not (as the spec
says) unconditionally. -/
theorem construct_retry_policy (cfg : Config) (env : Env) (ld : LoaderInfo)
    (hc : env.cudaError = none) (hl : env.loader = Except.ok ld)
    (hk : checkLimits cfg ld.n_instances env.memlockSoft = none) :
    (∀ e1, env.ctor1 = some e1 → isBadAllocError e1 = false →
      runWorker cfg env = finishErr [] false 1 e1) ∧
    (∀ e1, env.ctor1 = some e1 → isBadAllocError e1 = true →
      (runWorker cfg env).ctorAttempts = 2) ∧
    (∀ e1 e2, env.ctor1 = some e1 → isBadAllocError e1 = true →
      env.ctor2 = some e2 → isBadAllocError e2 = true →
      runWorker cfg env = finishErr [] false 2
        { cls := "RuntimeError", msg := formatBadAllocMessage e2, isMemErr := false } ∧
      (hasCudaOsSignature e2 = true →
        ∃ a, formatBadAllocMessage e2 = a ++ verifyCmd) ∧
      (hasCudaOsSignature e2 = false →
        formatBadAllocMessage e2 =
          "GPUMAP failed with std::bad_alloc. Original error: " ++ badAllocDetail e2) ∧
      strContains verifyCmd "python -c" = true) := by
  refine ⟨?_, ?_, ?_⟩
  · intro e1 h1 hbad
    have hce : constructEngine env = Except.error (e1, 1) := by
      simp only [constructEngine, h1, hbad, Bool.not_false, if_true]
    simp only [runWorker, hc, hl, hk, hce]
  · intro e1 h1 hbad
    rcases h2 : env.ctor2 with _ | e2
    · have hce : constructEngine env = Except.ok 2 := by
        simp only [constructEngine, h1, hbad, Bool.not_true, Bool.false_eq_true,
          if_false, h2]
      rcases hlr : loopRun env.stopFlags env.steps false with ⟨ms, ex⟩
      cases ex <;> simp only [runWorker, hc, hl, hk, hce, hlr] <;> rfl
    · by_cases hb2 : isBadAllocError e2 = true
      · have hce : constructEngine env = Except.error
            ({ cls := "RuntimeError", msg := formatBadAllocMessage e2,
               isMemErr := false }, 2) := by
          simp only [constructEngine, h1, hbad, Bool.not_true, Bool.false_eq_true,
            if_false, h2, hb2]
        simp only [runWorker, hc, hl, hk, hce]
        rfl
      · have hb2f : isBadAllocError e2 = false := by
          cases hx : isBadAllocError e2
          · rfl
          · exact absurd hx hb2
        have hce : constructEngine env = Except.error (e2, 2) := by
          simp only [constructEngine, h1, hbad, Bool.not_true, Bool.false_eq_true,
            if_false, h2, hb2f, Bool.not_false, if_true]
        simp only [runWorker, hc, hl, hk, hce]
        rfl
  · intro e1 e2 h1 hbad1 h2 hbad2
    have hce : constructEngine env = Except.error
        ({ cls := "RuntimeError", msg := formatBadAllocMessage e2,
           isMemErr := false }, 2) := by
      simp only [constructEngine, h1, hbad1, Bool.not_true, Bool.false_eq_true,
        if_false, h2, hbad2]
    refine ⟨by simp only [runWorker, hc, hl, hk, hce], ?_, ?_, by decide⟩
    · intro hsig
      refine ⟨"CUDA runtime initialization failed (cudaErrorOperatingSystem). " ++
        "This process cannot allocate GPU memory. " ++
        "Original error: " ++ badAllocDetail e2 ++ ". " ++
        "Run this in the same environment to verify: ", ?_⟩
      unfold formatBadAllocMessage
      rw [if_pos hsig]
    · intro hsig
      unfold formatBadAllocMessage
      rw [if_neg (by rw [hsig]; exact Bool.false_ne_true)]


theorem wstep_thread (w : Nat) (g : GState) : (wstep w g).thread = g.thread := by
  simp only [wstep, putMsg, setWorker, incClosed]
  repeat' split
  all_goals rfl

theorem wstep_threadStop (w : Nat) (g : GState) :
    (wstep w g).threadStop = g.threadStop := by
  simp only [wstep, putMsg, setWorker, incClosed]
  repeat' split
  all_goals rfl

theorem wstep_queueRef (w : Nat) (g : GState) : (wstep w g).queueRef = g.queueRef := by
  simp only [wstep, putMsg, setWorker, incClosed]
  repeat' split
  all_goals rfl

theorem wstep_wsCurrent (w : Nat) (g : GState) : (wstep w g).wsCurrent = g.wsCurrent := by
  simp only [wstep, putMsg, setWorker, incClosed]
  repeat' split
  all_goals rfl

theorem wstep_workers_length (w : Nat) (g : GState) :
    (wstep w g).workers.length = g.workers.length := by
  simp only [wstep, putMsg, setWorker, incClosed]
  repeat' split
  all_goals simp

theorem wstep_queues_length (w : Nat) (g : GState) :
    (wstep w g).queues.length = g.queues.length := by
  simp only [wstep, putMsg, setWorker, incClosed]
  repeat' split
  all_goals simp

theorem wstep_not_alive (w : Nat) (g : GState) (h : aliveW g w = false) :
    wstep w g = g := by
  unfold aliveW at h
  rcases hw : g.workers[w]? with _ | wk
  · simp only [wstep, hw]
  · rw [hw] at h
    simp at h
    simp only [wstep, hw, h]


theorem putMsg_workers (g : GState) (w : Nat) (m : Msg) :
    (putMsg g w m).workers = g.workers := by
  unfold putMsg
  split <;> rfl

theorem putMsg_models (g : GState) (w : Nat) (m : Msg) :
    (putMsg g w m).models = g.models := by
  unfold putMsg
  split <;> rfl

theorem putMsg_entry (g : GState) (w : Nat) (m : Msg) (q : Nat) (en : Entry)
    (hen : en ∈ (putMsg g w m).queues.getD q []) :
    en ∈ g.queues.getD q [] ∨ (g.queueRef = some q ∧ en = ⟨w, m⟩) := by
  simp only [List.getD_eq_getElem?_getD] at hen ⊢
  unfold putMsg at hen
  rcases hq : g.queueRef with _ | q'
  · rw [hq] at hen
    exact Or.inl hen
  · rw [hq] at hen
    simp only [List.getD_eq_getElem?_getD, List.getElem?_set] at hen
    by_cases he : q' = q
    · subst he
      rw [if_pos rfl] at hen
      by_cases hlen : q' < g.queues.length
      · rw [if_pos hlen] at hen
        simp only [Option.getD_some] at hen
        rcases List.mem_append.1 hen with h1 | h1
        · exact Or.inl h1
        · right
          refine ⟨rfl, ?_⟩
          simpa using h1
      · rw [if_neg hlen] at hen
        simp at hen
    · rw [if_neg he] at hen
      exact Or.inl hen

theorem wstep_workers_other (w z : Nat) (g : GState) (hz : z ≠ w) :
    (wstep w g).workers[z]? = g.workers[z]? := by
  simp only [wstep, putMsg, setWorker, incClosed]
  repeat' split
  all_goals first
    | rfl
    | simp [List.getElem?_set_ne (fun he => hz he.symm)]

theorem wstep_queues_entry (w : Nat) (g : GState) (q : Nat) (en : Entry)
    (hen : en ∈ (wstep w g).queues.getD q []) :
    en ∈ g.queues.getD q [] ∨
      (aliveW g w = true ∧ g.queueRef = some q ∧ en.wid = w) := by
  rcases hw : g.workers[w]? with _ | wk
  · rw [show wstep w g = g by simp only [wstep, hw]] at hen
    exact Or.inl hen
  · have halive : wk.phase ≠ WPhase.dead → aliveW g w = true := by
      intro hnd
      unfold aliveW
      rw [hw]
      simpa using hnd
    cases hp : wk.phase
    case dead =>
      rw [show wstep w g = g by simp only [wstep, hw, hp]] at hen
      exact Or.inl hen
    case init =>
      simp only [wstep, hw, hp] at hen
      rcases putMsg_entry _ _ _ _ _ hen with h1 | ⟨hqr, hval⟩
      · exact Or.inl h1
      · right
        refine ⟨halive (by rw [hp]; simp), hqr, by rw [hval]⟩
    case loopTop =>
      by_cases hst : wk.stopEvt = true
      · rw [show wstep w g = setWorker g w { wk with phase := WPhase.final } by
          simp only [wstep, hw, hp, hst, if_true]] at hen
        exact Or.inl hen
      · have hst' : wk.stopEvt = false := by
          cases hx : wk.stopEvt
          · rfl
          · exact absurd hx hst
        rcases hres : wk.results with _ | ⟨r, rest⟩
        · rw [show wstep w g = g by simp only [wstep, hw, hp, hst', hres]; rfl] at hen
          exact Or.inl hen
        · rw [show wstep w g = setWorker g w
              { wk with phase := WPhase.inStep r, results := rest } by
            simp only [wstep, hw, hp, hst', hres]; rfl] at hen
          exact Or.inl hen
    case inStep r =>
      simp only [wstep, hw, hp] at hen
      rcases putMsg_entry _ _ _ _ _ hen with h1 | ⟨hqr, hval⟩
      · exact Or.inl h1
      · right
        refine ⟨halive (by rw [hp]; simp), hqr, by rw [hval]⟩
    case final =>
      simp only [wstep, hw, hp] at hen
      rcases putMsg_entry _ _ _ _ _ hen with h1 | ⟨hqr, hval⟩
      · left
        rcases hlm : wk.localModel with _ | mi
        · rw [hlm] at h1
          exact h1
        · rw [hlm] at h1
          simp only at h1
          by_cases hsh : g.sharedModel = some mi
          · rw [if_pos hsh] at h1
            exact h1
          · rw [if_neg hsh] at h1
            exact h1
      · right
        refine ⟨halive (by rw [hp]; simp), ?_, by rw [hval]⟩
        rcases hlm : wk.localModel with _ | mi
        · rw [hlm] at hqr
          exact hqr
        · rw [hlm] at hqr
          simp only at hqr
          by_cases hsh : g.sharedModel = some mi
          · rw [if_pos hsh] at hqr
            exact hqr
          · rw [if_neg hsh] at hqr
            exact hqr


theorem wstep_progress (g : GState) (w : Nat) (wk : TWorker)
    (hw : g.workers[w]? = some wk) (hs : wk.stopEvt = true)
    (hnd : wk.phase ≠ WPhase.dead) :
    ∃ wk', (wstep w g).workers[w]? = some wk' ∧ wk'.stopEvt = true ∧
      phaseRank wk'.phase < phaseRank wk.phase := by
  have hlt : w < g.workers.length := by
    rcases List.getElem?_eq_some_iff.1 hw with ⟨h, _⟩
    exact h
  cases hp : wk.phase
  case dead => exact absurd hp hnd
  case init =>
    refine ⟨{ wk with localModel := some g.models.length, phase := WPhase.loopTop },
      ?_, hs, by simp [phaseRank]⟩
    simp only [wstep, hw, hp]
    rw [putMsg_workers]
    simp only [setWorker]
    simp [List.getElem?_set_self (by simpa using hlt)]
  case loopTop =>
    refine ⟨{ wk with phase := WPhase.final }, ?_, hs, by simp [phaseRank]⟩
    simp only [wstep, hw, hp, hs, if_true]
    simp only [setWorker]
    simp [List.getElem?_set_self hlt]
  case inStep r =>
    refine ⟨{ wk with
        allInserted := wk.allInserted || r.insertion_completed,
        phase := if (mkEmbMsg r (wk.allInserted || r.insertion_completed)).is_done
          then WPhase.final else WPhase.loopTop }, ?_, hs, ?_⟩
    · simp only [wstep, hw, hp]
      rw [putMsg_workers]
      simp only [setWorker]
      simp [List.getElem?_set_self hlt]
    · split <;> simp [phaseRank]
  case final =>
    refine ⟨{ wk with phase := WPhase.dead }, ?_, hs, by simp [phaseRank]⟩
    simp only [wstep, hw, hp]
    rw [putMsg_workers]
    simp only [setWorker]
    rcases wk.localModel with _ | mi
    · simp [List.getElem?_set_self hlt]
    · simp only
      split <;> simp [List.getElem?_set_self hlt]

theorem stepN_kills (n : Nat) : ∀ (g : GState) (w : Nat) (wk : TWorker),
    g.workers[w]? = some wk → wk.stopEvt = true → phaseRank wk.phase ≤ n →
    aliveW (stepN w n g) w = false := by
  induction n with
  | zero =>
    intro g w wk hw hs hr
    have hd : wk.phase = WPhase.dead := by
      cases hx : wk.phase
      case dead => rfl
      all_goals rw [hx] at hr; simp [phaseRank] at hr
    show aliveW g w = false
    unfold aliveW
    rw [hw]
    simp [hd]
  | succ n ih =>
    intro g w wk hw hs hr
    by_cases hd : wk.phase = WPhase.dead
    · have hna : aliveW g w = false := by
        unfold aliveW
        rw [hw]
        simp [hd]
      show aliveW (stepN w n (wstep w g)) w = false
      rw [wstep_not_alive w g hna]
      exact ih g w wk hw hs (by rw [hd]; simp [phaseRank])
    · obtain ⟨wk', hw', hs', hr'⟩ := wstep_progress g w wk hw hs hd
      show aliveW (stepN w n (wstep w g)) w = false
      exact ih (wstep w g) w wk' hw' hs' (by omega)


theorem wstep_cases (w : Nat) (g : GState) (wk : TWorker)
    (hw : g.workers[w]? = some wk) :
    wstep w g = g ∨
    (∃ wk', (wstep w g).workers = g.workers.set w wk' ∧
      (wstep w g).models = g.models ∧
      wk'.localModel = wk.localModel ∧
      wk'.phase ≠ WPhase.dead ∧ wk'.phase ≠ WPhase.init ∧
      wk.phase ≠ WPhase.dead ∧ wk.phase ≠ WPhase.init) ∨
    (wk.phase = WPhase.init ∧
      (wstep w g).workers = g.workers.set w
        { wk with localModel := some g.models.length, phase := WPhase.loopTop } ∧
      (wstep w g).models = g.models ++ [⟨0, w⟩]) ∨
    (wk.phase = WPhase.final ∧
      (wstep w g).workers = g.workers.set w { wk with phase := WPhase.dead } ∧
      (wstep w g).models =
        (match wk.localModel with
         | none => g.models
         | some mi => incClosed g.models mi)) := by
  cases hp : wk.phase
  case dead =>
    exact Or.inl (by simp only [wstep, hw, hp])
  case init =>
    refine Or.inr (Or.inr (Or.inl ⟨rfl, ?_, ?_⟩))
    · simp only [wstep, hw, hp]
      rw [putMsg_workers]
      rfl
    · simp only [wstep, hw, hp]
      rw [putMsg_models]
      rfl
  case loopTop =>
    by_cases hst : wk.stopEvt = true
    · refine Or.inr (Or.inl ⟨{ wk with phase := WPhase.final }, ?_, ?_, rfl,
        by simp, by simp, by simp, by simp⟩)
      · simp only [wstep, hw, hp, hst, if_true]
        rfl
      · simp only [wstep, hw, hp, hst, if_true]
        rfl
    · have hst' : wk.stopEvt = false := by
        cases hx : wk.stopEvt
        · rfl
        · exact absurd hx hst
      rcases hres : wk.results with _ | ⟨r, rest⟩
      · exact Or.inl (by simp only [wstep, hw, hp, hst', hres]; rfl)
      · refine Or.inr (Or.inl ⟨{ wk with phase := WPhase.inStep r, results := rest },
          ?_, ?_, rfl, by simp, by simp, by simp, by simp⟩)
        · simp only [wstep, hw, hp, hst', hres]
          rfl
        · simp only [wstep, hw, hp, hst', hres]
          rfl
  case inStep r =>
    refine Or.inr (Or.inl ⟨{ wk with
        allInserted := wk.allInserted || r.insertion_completed,
        phase := if (mkEmbMsg r (wk.allInserted || r.insertion_completed)).is_done
          then WPhase.final else WPhase.loopTop }, ?_, ?_, rfl,
      by split <;> simp, by split <;> simp, by simp, by simp⟩)
    · simp only [wstep, hw, hp]
      rw [putMsg_workers]
      rfl
    · simp only [wstep, hw, hp]
      rw [putMsg_models]
      rfl
  case final =>
    refine Or.inr (Or.inr (Or.inr ⟨rfl, ?_, ?_⟩))
    · simp only [wstep, hw, hp]
      rw [putMsg_workers]
      rcases hlm : wk.localModel with _ | mi
      · rfl
      · simp only
        split <;> rfl
    · simp only [wstep, hw, hp]
      rw [putMsg_models]
      rcases hlm : wk.localModel with _ | mi
      · rfl
      · simp only
        split <;> rfl


theorem inv_g0 : Inv g0 := by
  constructor <;> simp [g0, aliveW]

theorem aliveW_set_other (g : GState) (w z : Nat) (wk' : TWorker) (hz : z ≠ w) :
    aliveW { g with workers := g.workers.set w wk' } z = aliveW g z := by
  unfold aliveW
  simp only
  rw [List.getElem?_set_ne (fun he => hz he.symm)]

theorem wstep_inv (w : Nat) (g : GState) (h : Inv g) : Inv (wstep w g) := by
  rcases hw : g.workers[w]? with _ | wk
  · rw [show wstep w g = g by simp only [wstep, hw]]
    exact h
  have hlt : w < g.workers.length := by
    rcases List.getElem?_eq_some_iff.1 hw with ⟨hx, _⟩
    exact hx
  have halive : wk.phase ≠ WPhase.dead → aliveW g w = true := by
    intro hnd
    unfold aliveW
    rw [hw]
    simpa using hnd
  refine ⟨?_, ?_, ?_, ?_, ?_, ?_, ?_, ?_, ?_⟩
  · rw [wstep_workers_length, wstep_queues_length]
    exact h.len_eq
  · rw [wstep_threadStop, wstep_thread]
    exact h.ts_eq
  · intro z hz
    rw [wstep_thread] at hz
    rw [wstep_queueRef]
    exact h.tq z hz
  · intro z hz
    rw [wstep_thread]
    by_cases hzw : z = w
    · subst hzw
      by_cases ha : aliveW g z = true
      · exact h.single z ha
      · rw [wstep_not_alive z g (by simpa using ha)] at hz
        exact h.single z hz
    · unfold aliveW at hz
      rw [wstep_workers_other w z g hzw] at hz
      exact h.single z hz
  · intro q en hen
    rcases wstep_queues_entry w g q en hen with h1 | ⟨ha, hqr, hwid⟩
    · exact h.qpure q en h1
    · have ht := h.single w ha
      have hq := h.tq w ht
      rw [hq] at hqr
      cases hqr
      rw [hwid]
  all_goals
    rcases wstep_cases w g wk hw with heq | ⟨wk', hws, hms, hlm, hnd', hni', hnd, hni⟩ |
      ⟨hpi, hws, hms⟩ | ⟨hpf, hws, hms⟩
  -- creator_model
  · rw [heq]; exact h.creator_model
  · intro mi rec hrec
    rw [hms] at hrec
    obtain ⟨wkc, hwkc, hwlm⟩ := h.creator_model mi rec hrec
    by_cases hc : rec.creator = w
    · subst hc
      rw [hw] at hwkc
      cases hwkc
      refine ⟨wk', ?_, by rw [hlm]; exact hwlm⟩
      rw [hws]
      simp [List.getElem?_set_self hlt]
    · refine ⟨wkc, ?_, hwlm⟩
      rw [hws]
      rw [List.getElem?_set_ne (fun he => hc he.symm)]
      exact hwkc
  · intro mi rec hrec
    rw [hms] at hrec
    have h0 : wk.localModel = none := h.init_none w wk hw hpi
    by_cases hmi : mi < g.models.length
    · rw [List.getElem?_append_left hmi] at hrec
      obtain ⟨wkc, hwkc, hwlm⟩ := h.creator_model mi rec hrec
      by_cases hc : rec.creator = w
      · subst hc
        rw [hw] at hwkc
        cases hwkc
        rw [h0] at hwlm
        exact absurd hwlm (by simp)
      · refine ⟨wkc, ?_, hwlm⟩
        rw [hws]
        rw [List.getElem?_set_ne (fun he => hc he.symm)]
        exact hwkc
    · have hmi2 : mi = g.models.length := by
        rcases List.getElem?_eq_some_iff.1 hrec with ⟨hx, _⟩
        simp at hx
        omega
      subst hmi2
      rw [List.getElem?_append_right (by omega)] at hrec
      simp at hrec
      cases hrec
      refine ⟨{ wk with localModel := some g.models.length, phase := WPhase.loopTop },
        ?_, rfl⟩
      rw [hws]
      simp [List.getElem?_set_self hlt]
  · intro mi rec hrec
    rw [hms] at hrec
    rcases hlm : wk.localModel with _ | mi0
    · rw [hlm] at hrec
      simp only at hrec
      obtain ⟨wkc, hwkc, hwlm⟩ := h.creator_model mi rec hrec
      by_cases hc : rec.creator = w
      · subst hc
        rw [hw] at hwkc
        cases hwkc
        rw [hlm] at hwlm
        exact absurd hwlm (by simp)
      · refine ⟨wkc, ?_, hwlm⟩
        rw [hws]
        rw [List.getElem?_set_ne (fun he => hc he.symm)]
        exact hwkc
    · rw [hlm] at hrec
      simp only [incClosed] at hrec
      obtain ⟨rec0, hrec0, hcrea0⟩ := h.local_creator w wk mi0 hw hlm
      have hmi0lt : mi0 < g.models.length := by
        rcases List.getElem?_eq_some_iff.1 hrec0 with ⟨hx, _⟩
        exact hx
      by_cases hmi : mi0 = mi
      · subst hmi
        rw [List.getElem?_set_self hmi0lt] at hrec
        cases hrec
        refine ⟨{ wk with phase := WPhase.dead }, ?_, ?_⟩
        · rw [hws]
          have : (g.models.getD mi0 ⟨0, 0⟩).creator = w := by
            rw [List.getD_eq_getElem?_getD, hrec0]
            exact hcrea0
          rw [this]
          simp [List.getElem?_set_self hlt]
        · show wk.localModel = some mi0
          exact hlm
      · rw [List.getElem?_set_ne hmi] at hrec
        obtain ⟨wkc, hwkc, hwlm⟩ := h.creator_model mi rec hrec
        by_cases hc : rec.creator = w
        · subst hc
          rw [hw] at hwkc
          cases hwkc
          rw [hlm] at hwlm
          cases hwlm
          exact absurd rfl hmi
        · refine ⟨wkc, ?_, hwlm⟩
          rw [hws]
          rw [List.getElem?_set_ne (fun he => hc he.symm)]
          exact hwkc
  -- local_creator
  · rw [heq]; exact h.local_creator
  · intro z wkz mi hwz hzm
    rw [hws] at hwz
    by_cases hzw : z = w
    · subst hzw
      rw [List.getElem?_set_self hlt] at hwz
      cases hwz
      rw [hlm] at hzm
      obtain ⟨rec, hrec, hc⟩ := h.local_creator z wk mi hw hzm
      exact ⟨rec, by rw [hms]; exact hrec, hc⟩
    · rw [List.getElem?_set_ne (fun he => hzw he.symm)] at hwz
      obtain ⟨rec, hrec, hc⟩ := h.local_creator z wkz mi hwz hzm
      exact ⟨rec, by rw [hms]; exact hrec, hc⟩
  · intro z wkz mi hwz hzm
    rw [hws] at hwz
    by_cases hzw : z = w
    · subst hzw
      rw [List.getElem?_set_self hlt] at hwz
      cases hwz
      simp only at hzm
      cases hzm
      refine ⟨⟨0, z⟩, ?_, rfl⟩
      rw [hms]
      rw [List.getElem?_append_right (by omega)]
      simp
    · rw [List.getElem?_set_ne (fun he => hzw he.symm)] at hwz
      obtain ⟨rec, hrec, hc⟩ := h.local_creator z wkz mi hwz hzm
      have hmilt : mi < g.models.length := by
        rcases List.getElem?_eq_some_iff.1 hrec with ⟨hx, _⟩
        exact hx
      refine ⟨rec, ?_, hc⟩
      rw [hms]
      rw [List.getElem?_append_left hmilt]
      exact hrec
  · intro z wkz mi hwz hzm
    rw [hws] at hwz
    by_cases hzw : z = w
    · subst hzw
      rw [List.getElem?_set_self hlt] at hwz
      cases hwz
      show ∃ rec, (wstep z g).models[mi]? = some rec ∧ rec.creator = z
      have hzm' : wk.localModel = some mi := hzm
      obtain ⟨rec0, hrec0, hcrea0⟩ := h.local_creator z wk mi hw hzm'
      have hmilt : mi < g.models.length := by
        rcases List.getElem?_eq_some_iff.1 hrec0 with ⟨hx, _⟩
        exact hx
      rw [hms, hzm']
      simp only [incClosed]
      refine ⟨_, List.getElem?_set_self hmilt, ?_⟩
      show (g.models.getD mi ⟨0, 0⟩).creator = z
      rw [List.getD_eq_getElem?_getD, hrec0]
      exact hcrea0
    · rw [List.getElem?_set_ne (fun he => hzw he.symm)] at hwz
      obtain ⟨rec, hrec, hc⟩ := h.local_creator z wkz mi hwz hzm
      rw [hms]
      rcases hlm : wk.localModel with _ | mi0
      · exact ⟨rec, hrec, hc⟩
      · simp only [incClosed]
        by_cases hmi : mi0 = mi
        · subst hmi
          obtain ⟨rec0, hrec0, hcrea0⟩ := h.local_creator w wk mi0 hw hlm
          rw [hrec0] at hrec
          cases hrec
          rw [hcrea0] at hc
          exact absurd hc.symm hzw
        · rw [List.getElem?_set_ne hmi]
          exact ⟨rec, hrec, hc⟩
  -- closed_alive
  · rw [heq]; exact h.closed_alive
  · intro mi rec hrec
    rw [hms] at hrec
    have hold := h.closed_alive mi rec hrec
    by_cases hc : rec.creator = w
    · subst hc
      have ha1 : aliveW g rec.creator = true := halive hnd
      have ha2 : aliveW (wstep rec.creator g) rec.creator = true := by
        unfold aliveW
        rw [show (wstep rec.creator g).workers[rec.creator]? = some wk' by
          rw [hws]; simp [List.getElem?_set_self hlt]]
        simpa using hnd'
      refine ⟨fun _ => hold.1 ha1, fun hcontra => ?_⟩
      rw [ha2] at hcontra
      exact Bool.noConfusion hcontra
    · have : aliveW (wstep w g) rec.creator = aliveW g rec.creator := by
        unfold aliveW
        rw [hws]
        rw [List.getElem?_set_ne (fun he => hc he.symm)]
      rw [this]
      exact hold
  · intro mi rec hrec
    rw [hms] at hrec
    have h0 : wk.localModel = none := h.init_none w wk hw hpi
    by_cases hmi : mi < g.models.length
    · rw [List.getElem?_append_left hmi] at hrec
      have hold := h.closed_alive mi rec hrec
      have hcne : rec.creator ≠ w := by
        intro hc
        obtain ⟨wkc, hwkc, hwlm⟩ := h.creator_model mi rec hrec
        rw [hc, hw] at hwkc
        cases hwkc
        rw [h0] at hwlm
        exact Option.noConfusion hwlm
      have : aliveW (wstep w g) rec.creator = aliveW g rec.creator := by
        unfold aliveW
        rw [hws]
        rw [List.getElem?_set_ne (fun he => hcne he.symm)]
      rw [this]
      exact hold
    · have hmi2 : mi = g.models.length := by
        rcases List.getElem?_eq_some_iff.1 hrec with ⟨hx, _⟩
        simp at hx
        omega
      subst hmi2
      rw [List.getElem?_append_right (by omega)] at hrec
      simp at hrec
      rw [← hrec]
      have ha2 : aliveW (wstep w g) w = true := by
        unfold aliveW
        rw [show (wstep w g).workers[w]? = some
            { wk with localModel := some g.models.length, phase := WPhase.loopTop } by
          rw [hws]; simp [List.getElem?_set_self hlt]]
        simp
      refine ⟨fun _ => rfl, fun hcontra => ?_⟩
      rw [ha2] at hcontra
      exact Bool.noConfusion hcontra
  · intro mi rec hrec
    rw [hms] at hrec
    rcases hlm : wk.localModel with _ | mi0
    · rw [hlm] at hrec
      simp only at hrec
      have hold := h.closed_alive mi rec hrec
      have hcne : rec.creator ≠ w := by
        intro hc
        obtain ⟨wkc, hwkc, hwlm⟩ := h.creator_model mi rec hrec
        rw [hc, hw] at hwkc
        cases hwkc
        rw [hlm] at hwlm
        exact Option.noConfusion hwlm
      have : aliveW (wstep w g) rec.creator = aliveW g rec.creator := by
        unfold aliveW
        rw [hws]
        rw [List.getElem?_set_ne (fun he => hcne he.symm)]
      rw [this]
      exact hold
    · rw [hlm] at hrec
      simp only [incClosed] at hrec
      obtain ⟨rec0, hrec0, hcrea0⟩ := h.local_creator w wk mi0 hw hlm
      have hmi0lt : mi0 < g.models.length := by
        rcases List.getElem?_eq_some_iff.1 hrec0 with ⟨hx, _⟩
        exact hx
      have hgetD : g.models.getD mi0 ⟨0, 0⟩ = rec0 := by
        rw [List.getD_eq_getElem?_getD, hrec0]
        rfl
      by_cases hmi : mi0 = mi
      · subst hmi
        rw [List.getElem?_set_self hmi0lt] at hrec
        cases hrec
        have hdead : aliveW (wstep w g) w = false := by
          unfold aliveW
          rw [show (wstep w g).workers[w]? = some { wk with phase := WPhase.dead } by
            rw [hws]; simp [List.getElem?_set_self hlt]]
          simp
        have halv : aliveW g w = true := halive (by rw [hpf]; simp)
        have hc0 : rec0.closed = 0 := by
          have := (h.closed_alive mi0 rec0 hrec0).1
          rw [hcrea0] at this
          exact this halv
        rw [hgetD]
        rw [hcrea0]
        refine ⟨fun hcontra => ?_, fun _ => by simp [hc0]⟩
        rw [hdead] at hcontra
        exact Bool.noConfusion hcontra
      · rw [List.getElem?_set_ne hmi] at hrec
        have hold := h.closed_alive mi rec hrec
        have hcne : rec.creator ≠ w := by
          intro hc
          obtain ⟨wkc, hwkc, hwlm⟩ := h.creator_model mi rec hrec
          rw [hc, hw] at hwkc
          cases hwkc
          rw [hlm] at hwlm
          cases hwlm
          exact hmi rfl
        have : aliveW (wstep w g) rec.creator = aliveW g rec.creator := by
          unfold aliveW
          rw [hws]
          rw [List.getElem?_set_ne (fun he => hcne he.symm)]
        rw [this]
        exact hold
  -- init_none
  · rw [heq]; exact h.init_none
  · intro z wkz hwz hpz
    rw [hws] at hwz
    by_cases hzw : z = w
    · subst hzw
      rw [List.getElem?_set_self hlt] at hwz
      cases hwz
      exact absurd hpz hni'
    · rw [List.getElem?_set_ne (fun he => hzw he.symm)] at hwz
      exact h.init_none z wkz hwz hpz
  · intro z wkz hwz hpz
    rw [hws] at hwz
    by_cases hzw : z = w
    · subst hzw
      rw [List.getElem?_set_self hlt] at hwz
      cases hwz
      exact absurd hpz (by simp)
    · rw [List.getElem?_set_ne (fun he => hzw he.symm)] at hwz
      exact h.init_none z wkz hwz hpz
  · intro z wkz hwz hpz
    rw [hws] at hwz
    by_cases hzw : z = w
    · subst hzw
      rw [List.getElem?_set_self hlt] at hwz
      cases hwz
      exact absurd hpz (by simp)
    · rw [List.getElem?_set_ne (fun he => hzw he.symm)] at hwz
      exact h.init_none z wkz hwz hpz


theorem stepN_succ (w n : Nat) (g : GState) :
    stepN w (n + 1) g = stepN w n (wstep w g) := rfl

theorem stepN_inv (w n : Nat) (g : GState) (h : Inv g) : Inv (stepN w n g) := by
  induction n generalizing g with
  | zero => exact h
  | succ n ih => exact ih (wstep w g) (wstep_inv w g h)

theorem stepN_frame (w n : Nat) (g : GState) :
    (stepN w n g).thread = g.thread ∧ (stepN w n g).threadStop = g.threadStop ∧
    (stepN w n g).queueRef = g.queueRef ∧ (stepN w n g).wsCurrent = g.wsCurrent ∧
    (stepN w n g).workers.length = g.workers.length ∧
    (stepN w n g).queues.length = g.queues.length := by
  induction n generalizing g with
  | zero => exact ⟨rfl, rfl, rfl, rfl, rfl, rfl⟩
  | succ n ih =>
    obtain ⟨a, b, c, d, e, f⟩ := ih (wstep w g)
    exact ⟨by rw [stepN_succ, a, wstep_thread], by rw [stepN_succ, b, wstep_threadStop],
      by rw [stepN_succ, c, wstep_queueRef], by rw [stepN_succ, d, wstep_wsCurrent],
      by rw [stepN_succ, e, wstep_workers_length],
      by rw [stepN_succ, f, wstep_queues_length]⟩

theorem stepN_alive_only (w n : Nat) (g : GState) (z : Nat) (hz : z ≠ w) :
    (stepN w n g).workers[z]? = g.workers[z]? := by
  induction n generalizing g with
  | zero => rfl
  | succ n ih => rw [stepN_succ, ih (wstep w g), wstep_workers_other w z g hz]

theorem set_same_shape_inv (g : GState) (w : Nat) (wk wk' : TWorker) (h : Inv g)
    (hw : g.workers[w]? = some wk)
    (hlm : wk'.localModel = wk.localModel) (hph : wk'.phase = wk.phase) :
    Inv (setWorker g w wk') := by
  have hlt : w < g.workers.length := by
    rcases List.getElem?_eq_some_iff.1 hw with ⟨hx, _⟩
    exact hx
  have hget : ∀ z, (setWorker g w wk').workers[z]? =
      if z = w then some wk' else g.workers[z]? := by
    intro z
    by_cases hz : z = w
    · subst hz
      simp [setWorker, List.getElem?_set_self hlt]
    · simp [setWorker, List.getElem?_set_ne (fun he => hz he.symm), hz]
  have halset : ∀ z, aliveW (setWorker g w wk') z = aliveW g z := by
    intro z
    unfold aliveW
    rw [hget z]
    by_cases hz : z = w
    · subst hz
      rw [if_pos rfl, hw]
      simp only [hph]
    · rw [if_neg hz]
  refine ⟨?_, h.ts_eq, h.tq, ?_, h.qpure, ?_, ?_, ?_, ?_⟩
  · show (g.workers.set w wk').length = g.queues.length
    rw [List.length_set]
    exact h.len_eq
  · intro z hz
    rw [halset z] at hz
    exact h.single z hz
  · intro mi rec hrec
    obtain ⟨wkc, hwkc, hwlm⟩ := h.creator_model mi rec hrec
    rw [hget rec.creator]
    by_cases hc : rec.creator = w
    · rw [if_pos hc]
      rw [hc, hw] at hwkc
      cases hwkc
      exact ⟨wk', rfl, by rw [hlm]; exact hwlm⟩
    · rw [if_neg hc]
      exact ⟨wkc, hwkc, hwlm⟩
  · intro z wkz mi hwz hzm
    rw [hget z] at hwz
    by_cases hz : z = w
    · rw [if_pos hz] at hwz
      cases hwz
      rw [hlm] at hzm
      subst hz
      exact h.local_creator z wk mi hw hzm
    · rw [if_neg hz] at hwz
      exact h.local_creator z wkz mi hwz hzm
  · intro mi rec hrec
    rw [halset rec.creator]
    exact h.closed_alive mi rec hrec
  · intro z wkz hwz hpz
    rw [hget z] at hwz
    by_cases hz : z = w
    · rw [if_pos hz] at hwz
      cases hwz
      rw [hlm]
      rw [hph] at hpz
      subst hz
      exact h.init_none z wk hw hpz
    · rw [if_neg hz] at hwz
      exact h.init_none z wkz hwz hpz

theorem setStopEvt_inv (g : GState) (w : Nat) (h : Inv g) : Inv (setStopEvt g w) := by
  rcases hw : g.workers[w]? with _ | wk
  · rw [show setStopEvt g w = g by simp only [setStopEvt, hw]]
    exact h
  · rw [show setStopEvt g w = setWorker g w { wk with stopEvt := true } by
      simp only [setStopEvt, hw]]
    exact set_same_shape_inv g w wk _ h hw rfl rfl


theorem setStopEvt_frame (g : GState) (w : Nat) :
    (setStopEvt g w).thread = g.thread ∧
    (setStopEvt g w).threadStop = g.threadStop ∧
    (setStopEvt g w).queueRef = g.queueRef ∧
    (setStopEvt g w).wsCurrent = g.wsCurrent ∧
    (setStopEvt g w).queues = g.queues ∧
    (setStopEvt g w).models = g.models ∧
    (setStopEvt g w).workers.length = g.workers.length := by
  unfold setStopEvt setWorker
  split
  · exact ⟨rfl, rfl, rfl, rfl, rfl, rfl, rfl⟩
  · exact ⟨rfl, rfl, rfl, rfl, rfl, rfl, by simp⟩

theorem phaseRank_le (p : WPhase) : phaseRank p ≤ 4 := by
  cases p <;> simp [phaseRank]

theorem clear_thread_inv (g : GState) (h : Inv g)
    (hnoal : ∀ z, aliveW g z = false) :
    Inv { g with thread := none, threadStop := none } := by
  have hal : ∀ z, aliveW { g with thread := none, threadStop := none } z
      = aliveW g z := by
    intro z
    unfold aliveW
    rfl
  refine ⟨h.len_eq, rfl, ?_, ?_, h.qpure, h.creator_model, ?_, ?_, h.init_none⟩
  · intro z hz
    exact Option.noConfusion hz
  · intro z hz
    rw [hal z, hnoal z] at hz
    exact Bool.noConfusion hz
  · intro z wkz mi hwz hzm
    exact h.local_creator z wkz mi hwz hzm
  · intro mi rec hrec
    rw [hal rec.creator]
    exact h.closed_alive mi rec hrec

theorem aliveW_clear (g : GState) (z : Nat) :
    aliveW { g with thread := none, threadStop := none } z = aliveW g z := rfl

theorem clear_workers (g : GState) :
    ({ g with thread := none, threadStop := none } : GState).workers = g.workers := rfl

theorem clear_queues (g : GState) :
    ({ g with thread := none, threadStop := none } : GState).queues = g.queues := rfl

theorem clear_queueRef (g : GState) :
    ({ g with thread := none, threadStop := none } : GState).queueRef = g.queueRef := rfl

theorem clear_wsCurrent (g : GState) :
    ({ g with thread := none, threadStop := none } : GState).wsCurrent = g.wsCurrent := rfl

theorem stopRunning_true_spec (g : GState) (h : Inv g) :
    Inv (stopRunning true g) ∧
    (∀ z, aliveW (stopRunning true g) z = false) ∧
    (stopRunning true g).thread = none ∧
    (stopRunning true g).workers.length = g.workers.length ∧
    (stopRunning true g).queues.length = g.queues.length ∧
    (stopRunning true g).queueRef = g.queueRef ∧
    (stopRunning true g).wsCurrent = g.wsCurrent := by
  rcases hts : g.threadStop with _ | w
  · have hth : g.thread = none := by rw [← h.ts_eq, hts]
    have hrw : stopRunning true g = { g with thread := none, threadStop := none } := by
      simp only [stopRunning, hts, hth]
    have hnoal : ∀ z, aliveW g z = false := by
      intro z
      cases hz : aliveW g z
      · rfl
      · have := h.single z hz
        rw [hth] at this
        exact Option.noConfusion this
    rw [hrw]
    refine ⟨clear_thread_inv g h hnoal, ?_, rfl, rfl, rfl, rfl, rfl⟩
    intro z
    rw [aliveW_clear]
    exact hnoal z
  · have hth : g.thread = some w := by rw [← h.ts_eq, hts]
    obtain ⟨hf1, hf2, hf3, hf4, hf5, hf6, hf7⟩ := setStopEvt_frame g w
    have hinv1 : Inv (setStopEvt g w) := setStopEvt_inv g w h
    by_cases ha : aliveW (setStopEvt g w) w = true
    · -- the worker is alive: join runs it to completion
      rcases hgw : g.workers[w]? with _ | wk
      · exfalso
        have : setStopEvt g w = g := by simp only [setStopEvt, hgw]
        rw [this] at ha
        unfold aliveW at ha
        rw [hgw] at ha
        exact Bool.noConfusion ha
      have hlt : w < g.workers.length := by
        rcases List.getElem?_eq_some_iff.1 hgw with ⟨hx, _⟩
        exact hx
      have hg1w : (setStopEvt g w).workers[w]? = some { wk with stopEvt := true } := by
        simp only [setStopEvt, hgw, setWorker]
        simp [List.getElem?_set_self hlt]
      have hdead : aliveW (stepN w 4 (setStopEvt g w)) w = false :=
        stepN_kills 4 (setStopEvt g w) w { wk with stopEvt := true } hg1w rfl
          (phaseRank_le _)
      have hinv2 : Inv (stepN w 4 (setStopEvt g w)) := stepN_inv w 4 _ hinv1
      obtain ⟨hs1, hs2, hs3, hs4, hs5, hs6⟩ := stepN_frame w 4 (setStopEvt g w)
      have hrw : stopRunning true g =
          { stepN w 4 (setStopEvt g w) with thread := none, threadStop := none } := by
        simp only [stopRunning, hts, hf1, hth, ha, Bool.true_and, if_true, hs1,
          hdead, Bool.false_eq_true, if_false]
      have hnoal2 : ∀ z, aliveW (stepN w 4 (setStopEvt g w)) z = false := by
        intro z
        cases hz : aliveW (stepN w 4 (setStopEvt g w)) z
        · rfl
        · have := hinv2.single z hz
          rw [hs1, hf1, hth] at this
          cases this
          rw [hz] at hdead
          exact Bool.noConfusion hdead
      rw [hrw]
      refine ⟨clear_thread_inv _ hinv2 hnoal2, ?_, rfl, ?_, ?_, ?_, ?_⟩
      · intro z
        rw [aliveW_clear]
        exact hnoal2 z
      · rw [clear_workers]
        rw [hs5, hf7]
      · rw [clear_queues]
        rw [hs6, hf5]
      · rw [clear_queueRef]
        rw [hs3, hf3]
      · rw [clear_wsCurrent]
        rw [hs4, hf4]
    · -- the worker has already exited
      have ha' : aliveW (setStopEvt g w) w = false := by
        cases hx : aliveW (setStopEvt g w) w
        · rfl
        · exact absurd hx ha
      have hrw : stopRunning true g =
          { setStopEvt g w with thread := none, threadStop := none } := by
        simp only [stopRunning, hts, hf1, hth, ha', Bool.false_and,
          Bool.false_eq_true, if_false]
      have hnoal1 : ∀ z, aliveW (setStopEvt g w) z = false := by
        intro z
        cases hz : aliveW (setStopEvt g w) z
        · rfl
        · have := hinv1.single z hz
          rw [hf1, hth] at this
          cases this
          rw [hz] at ha'
          exact Bool.noConfusion ha'
      rw [hrw]
      refine ⟨clear_thread_inv _ hinv1 hnoal1, ?_, rfl, ?_, ?_, ?_, ?_⟩
      · intro z
        rw [aliveW_clear]
        exact hnoal1 z
      · rw [clear_workers]
        rw [hf7]
      · rw [clear_queues]
        rw [hf5]
      · rw [clear_queueRef]
        rw [hf3]
      · rw [clear_wsCurrent]
        rw [hf4]


theorem aliveW_setStopEvt (G : GState) (w z : Nat) :
    aliveW (setStopEvt G w) z = aliveW G z := by
  unfold setStopEvt
  rcases hw : G.workers[w]? with _ | wk
  · rfl
  · have hlt : w < G.workers.length := by
      rcases List.getElem?_eq_some_iff.1 hw with ⟨hx, _⟩
      exact hx
    unfold aliveW setWorker
    by_cases hz : z = w
    · subst hz
      show (match (G.workers.set z _)[z]? with
        | none => false | some wk => !wk.phase == WPhase.dead) = _
      rw [List.getElem?_set_self hlt, hw]
    · show (match (G.workers.set w _)[z]? with
        | none => false | some wk => !wk.phase == WPhase.dead) = _
      rw [List.getElem?_set_ne (fun he => hz he.symm)]

theorem setStopEvt_get (G : GState) (w z : Nat) :
    (setStopEvt G w).workers[z]? = G.workers[z]? ∨
    ∃ wk0 : TWorker, G.workers[z]? = some wk0 ∧
      (setStopEvt G w).workers[z]? = some { wk0 with stopEvt := true } := by
  unfold setStopEvt
  rcases hw : G.workers[w]? with _ | wk
  · exact Or.inl rfl
  · have hlt : w < G.workers.length := by
      rcases List.getElem?_eq_some_iff.1 hw with ⟨hx, _⟩
      exact hx
    by_cases hz : z = w
    · subst hz
      refine Or.inr ⟨wk, hw, ?_⟩
      show (G.workers.set z _)[z]? = _
      rw [List.getElem?_set_self hlt]
    · left
      show (G.workers.set w _)[z]? = _
      rw [List.getElem?_set_ne (fun he => hz he.symm)]

theorem stopRunning_noalive (g : GState) (j : Bool) (hnoal : ∀ z, aliveW g z = false) :
    ∃ D : GState, stopRunning j g = { D with thread := none, threadStop := none } ∧
      D.queues = g.queues ∧ D.models = g.models ∧ D.queueRef = g.queueRef ∧
      D.wsCurrent = g.wsCurrent ∧ D.workers.length = g.workers.length ∧
      (∀ z : Nat, aliveW D z = aliveW g z) ∧
      (∀ z : Nat, D.workers[z]? = g.workers[z]? ∨
        ∃ wk0 : TWorker, g.workers[z]? = some wk0 ∧
          D.workers[z]? = some { wk0 with stopEvt := true }) := by
  rcases hts : g.threadStop with _ | w
  · refine ⟨g, ?_, rfl, rfl, rfl, rfl, rfl, fun z => rfl, fun z => Or.inl rfl⟩
    rcases hth : g.thread with _ | w
    · simp only [stopRunning, hts, hth]
    · simp only [stopRunning, hts, hth, hnoal w, Bool.false_and,
        Bool.false_eq_true, if_false]
  · obtain ⟨hf1, hf2, hf3, hf4, hf5, hf6, hf7⟩ := setStopEvt_frame g w
    refine ⟨setStopEvt g w, ?_, hf5, hf6, hf3, hf4, hf7,
      fun z => aliveW_setStopEvt g w z, fun z => setStopEvt_get g w z⟩
    rcases hth : g.thread with _ | w'
    · simp only [stopRunning, hts, hf1, hth]
    · have hna : aliveW (setStopEvt g w) w' = false := by
        rw [aliveW_setStopEvt]
        exact hnoal w'
      simp only [stopRunning, hts, hf1, hth, hna, Bool.false_and,
        Bool.false_eq_true, if_false]


theorem inv_set_wsCurrent (g : GState) (v : Option Nat) (h : Inv g) :
    Inv { g with wsCurrent := v } :=
  ⟨h.len_eq, h.ts_eq, h.tq, h.single, h.qpure, h.creator_model,
    h.local_creator, h.closed_alive, h.init_none⟩

theorem apiStop_inv (g : GState) (h : Inv g) : Inv (apiStop true g) :=
  inv_set_wsCurrent _ _ (stopRunning_true_spec g h).1

theorem noalive_of_not_isAlive (g : GState) (h : Inv g) (hna : isAlive g = false) :
    ∀ z, aliveW g z = false := by
  intro z
  cases hz : aliveW g z
  · rfl
  · have hth := h.single z hz
    have hval : isAlive g = aliveW g z := by
      unfold isAlive
      rw [hth]
    rw [hval, hz] at hna
    exact hna

theorem apiStart_inv (g : GState) (sp : SpawnEnv) (h : Inv g) :
    Inv (apiStart true sp g) := by
  have hAinv0 : Inv (if isAlive g then runnerStop true g else g) := by
    by_cases hal : isAlive g = true
    · rw [if_pos hal]
      exact (stopRunning_true_spec g h).1
    · rw [if_neg (by simpa using hal)]
      exact h
  have hAnoal0 : ∀ z : Nat, aliveW (if isAlive g then runnerStop true g else g) z
      = false := by
    by_cases hal : isAlive g = true
    · rw [if_pos hal]
      exact (stopRunning_true_spec g h).2.1
    · rw [if_neg (by simpa using hal)]
      exact noalive_of_not_isAlive g h (by
        cases hx : isAlive g
        · rfl
        · exact absurd hx hal)
  unfold apiStart
  generalize hAdef : (if isAlive g then runnerStop true g else g) = A
  rw [hAdef] at hAinv0 hAnoal0
  have hBnoal : ∀ z : Nat, aliveW
      { A with queues := A.queues ++ [[]], wsCurrent := some A.queues.length } z
      = false := fun z => hAnoal0 z
  obtain ⟨D, hDeq, hDq, hDm, hDr, hDws, hDlen, hDal, hDsim⟩ :=
    stopRunning_noalive
      { A with queues := A.queues ++ [[]], wsCurrent := some A.queues.length }
      true hBnoal
  show Inv
    (let gC := stopRunning true
        { A with queues := A.queues ++ [[]], wsCurrent := some A.queues.length };
     { gC with
        thread := some gC.workers.length
        threadStop := some gC.workers.length
        queueRef := some A.queues.length
        workers := gC.workers ++ [mkWorker sp] })
  rw [hDeq]
  show Inv
    { D with
        thread := some D.workers.length
        threadStop := some D.workers.length
        queueRef := some A.queues.length
        workers := D.workers ++ [mkWorker sp] }
  have hwlenA : D.workers.length = A.workers.length := hDlen
  have hqe : D.queues = A.queues ++ [[]] := hDq
  have hme : D.models = A.models := hDm
  have hsim : ∀ z : Nat, D.workers[z]? = A.workers[z]? ∨
      ∃ wk0 : TWorker, A.workers[z]? = some wk0 ∧
        D.workers[z]? = some { wk0 with stopEvt := true } := fun z => hDsim z
  have hdal : ∀ z : Nat, aliveW D z = false := fun z => (hDal z).trans (hBnoal z)
  have hlenAq : A.workers.length = A.queues.length := hAinv0.len_eq
  constructor
  -- len_eq
  · show (D.workers ++ [mkWorker sp]).length = D.queues.length
    rw [hqe]
    simp [hwlenA, hlenAq]
  -- ts_eq
  · rfl
  -- tq
  · intro w hw
    simp only at hw
    cases hw
    show some A.queues.length = some D.workers.length
    rw [hwlenA, hlenAq]
  -- single
  · intro z hz
    show some D.workers.length = some z
    unfold aliveW at hz
    simp only at hz
    by_cases hlt : z < D.workers.length
    · rw [List.getElem?_append_left hlt] at hz
      have halz : aliveW D z = true := by
        unfold aliveW
        cases hx : D.workers[z]? with
        | none => rw [hx] at hz; exact Bool.noConfusion hz
        | some wk => rw [hx] at hz; exact hz
      rw [hdal z] at halz
      exact Bool.noConfusion halz
    · by_cases heq : z = D.workers.length
      · rw [heq]
      · exfalso
        rw [List.getElem?_append_right (by omega)] at hz
        rcases hz2 : (z - D.workers.length) with _ | k
        · omega
        · rw [hz2] at hz
          simp at hz
  -- qpure
  · intro q en hen
    show en.wid = q
    simp only at hen
    rw [List.getD_eq_getElem?_getD, hqe] at hen
    by_cases hlt : q < A.queues.length
    · rw [List.getElem?_append_left hlt] at hen
      exact hAinv0.qpure q en (by rw [List.getD_eq_getElem?_getD]; exact hen)
    · rw [List.getElem?_append_right (by omega)] at hen
      rcases hq2 : (q - A.queues.length) with _ | k
      · rw [hq2] at hen
        simp at hen
      · rw [hq2] at hen
        simp at hen
  -- creator_model
  · intro mi rec hrec
    simp only at hrec
    rw [hme] at hrec
    obtain ⟨wkc, hwkc, hwlm⟩ := hAinv0.creator_model mi rec hrec
    have hclt : rec.creator < A.workers.length := by
      rcases List.getElem?_eq_some_iff.1 hwkc with ⟨hx, _⟩
      exact hx
    show ∃ wk : TWorker, (D.workers ++ [mkWorker sp])[rec.creator]? = some wk ∧
      wk.localModel = some mi
    rw [List.getElem?_append_left (by omega)]
    rcases hsim rec.creator with hs | ⟨wk0, hw0, hs⟩
    · exact ⟨wkc, by rw [hs]; exact hwkc, hwlm⟩
    · rw [hw0] at hwkc
      cases hwkc
      exact ⟨_, hs, hwlm⟩
  -- local_creator
  · intro z wkz mi hwz hzm
    simp only at hwz
    show ∃ rec : MRec, D.models[mi]? = some rec ∧ rec.creator = z
    rw [hme]
    by_cases hlt : z < D.workers.length
    · rw [List.getElem?_append_left hlt] at hwz
      rcases hsim z with hs | ⟨wk0, hw0, hs⟩
      · rw [hs] at hwz
        exact hAinv0.local_creator z wkz mi hwz hzm
      · rw [hs] at hwz
        cases hwz
        exact hAinv0.local_creator z wk0 mi hw0 (by exact hzm)
    · by_cases heq : z = D.workers.length
      · subst heq
        rw [List.getElem?_append_right (by omega)] at hwz
        simp at hwz
        rw [← hwz] at hzm
        exact absurd hzm (by simp [mkWorker])
      · rw [List.getElem?_append_right (by omega)] at hwz
        rcases hz2 : (z - D.workers.length) with _ | k
        · omega
        · rw [hz2] at hwz
          simp at hwz
  -- closed_alive
  · intro mi rec hrec
    simp only at hrec
    rw [hme] at hrec
    have hold := hAinv0.closed_alive mi rec hrec
    obtain ⟨wkc, hwkc, _⟩ := hAinv0.creator_model mi rec hrec
    have hclt : rec.creator < A.workers.length := by
      rcases List.getElem?_eq_some_iff.1 hwkc with ⟨hx, _⟩
      exact hx
    have hcl1 : rec.closed = 1 := hold.2 (hAnoal0 rec.creator)
    have hdead : aliveW
        { D with
            thread := some D.workers.length
            threadStop := some D.workers.length
            queueRef := some A.queues.length
            workers := D.workers ++ [mkWorker sp] } rec.creator = false := by
      unfold aliveW
      simp only
      rw [List.getElem?_append_left (by omega)]
      have hdz := hdal rec.creator
      unfold aliveW at hdz
      exact hdz
    constructor
    · intro hcontra
      rw [hdead] at hcontra
      exact Bool.noConfusion hcontra
    · intro _
      exact hcl1
  -- init_none
  · intro z wkz hwz hpz
    simp only at hwz
    by_cases hlt : z < D.workers.length
    · rw [List.getElem?_append_left hlt] at hwz
      rcases hsim z with hs | ⟨wk0, hw0, hs⟩
      · rw [hs] at hwz
        exact hAinv0.init_none z wkz hwz hpz
      · rw [hs] at hwz
        cases hwz
        exact hAinv0.init_none z wk0 hw0 (by exact hpz)
    · by_cases heq : z = D.workers.length
      · subst heq
        rw [List.getElem?_append_right (by omega)] at hwz
        simp at hwz
        rw [← hwz]
        rfl
      · rw [List.getElem?_append_right (by omega)] at hwz
        rcases hz2 : (z - D.workers.length) with _ | k
        · omega
        · rw [hz2] at hwz
          simp at hwz


theorem execEv_inv (e : Ev) (g : GState) (h : Inv g) (hj : evJoinOk e = true) :
    Inv (execEv e g) := by
  cases e with
  | estart j sp =>
    have hj' : j = true := hj
    subst hj'
    exact apiStart_inv g sp h
  | estop j =>
    have hj' : j = true := hj
    subst hj'
    exact apiStop_inv g h
  | estep w => exact wstep_inv w g h

theorem exec_inv_aux (es : List Ev) : ∀ g : GState, Inv g →
    (∀ e ∈ es, evJoinOk e = true) → Inv (es.foldl (fun g e => execEv e g) g) := by
  induction es with
  | nil =>
    intro g h _
    exact h
  | cons e es ih =>
    intro g h hj
    exact ih (execEv e g) (execEv_inv e g h (hj e (List.mem_cons_self e es)))
      (fun e' he' => hj e' (List.mem_cons_of_mem e he'))

theorem exec_inv (es : List Ev) (hj : promptJoins es) : Inv (exec es) :=
  exec_inv_aux es g0 inv_g0 hj

theorem clear_models (g : GState) :
    ({ g with thread := none, threadStop := none } : GState).models = g.models := rfl

theorem stop_not_alive_no_close (g : GState) (j : Bool) (hna : isAlive g = false) :
    (stopRunning j g).models = g.models := by
  rcases hts : g.threadStop with _ | w
  · rcases hth : g.thread with _ | w'
    · simp only [stopRunning, hts, hth]
    · have hw : aliveW g w' = false := by
        have hval : isAlive g = aliveW g w' := by
          unfold isAlive
          rw [hth]
        rw [← hval]
        exact hna
      simp only [stopRunning, hts, hth, hw, Bool.false_and, Bool.false_eq_true,
        if_false]
  · obtain ⟨hf1, hf2, hf3, hf4, hf5, hf6, hf7⟩ := setStopEvt_frame g w
    rcases hth : g.thread with _ | w'
    · simp only [stopRunning, hts, hf1, hth]
      rw [clear_models, hf6]
    · have hw : aliveW g w' = false := by
        have hval : isAlive g = aliveW g w' := by
          unfold isAlive
          rw [hth]
        rw [← hval]
        exact hna
      have hw1 : aliveW (setStopEvt g w) w' = false := by
        rw [aliveW_setStopEvt]
        exact hw
      simp only [stopRunning, hts, hf1, hth, hw1, Bool.false_and,
        Bool.false_eq_true, if_false]
      rw [clear_models, hf6]


/-- Claim C1 counterexample: schedule `c1tr` starts run 0, issues a stop
whose 30-second join times out while the worker is blocked in an engine
step, then starts run 1 (current channel: queue 1).  The surviving run-0
worker then writes its embedding frame into queue 1 — the channel the
consumer observes as current — mixing the old run's output into the new
run's stream. -/
theorem stale_worker_message_reaches_new_channel :
    (exec c1tr).wsCurrent = some 1 ∧
    (exec c1tr).queueRef = some 1 ∧
    (exec c1tr).thread = some 1 ∧
    (exec c1tr).queues.getD 0 [] = [⟨0, Msg.started 4 2 none⟩] ∧
    (exec c1tr).queues.getD 1 [] = [⟨0, Msg.embedding (mkEmbMsg rBusy false)⟩] := by
  decide

/-- Claim C1 (amended): provided every stop's bounded join completes
within the timeout (`promptJoins`), each relay queue only ever holds
messages of the run it was created for, so after a replacement the
current channel carries only the new run's messages.  Without that
proviso the isolation fails, as the counterexample schedule shows. -/
theorem relay_channel_isolation (es : List Ev) (hj : promptJoins es) :
    ∀ (q : Nat) (en : Entry), en ∈ (exec es).queues.getD q [] → en.wid = q :=
  fun q en hen => (exec_inv es hj).qpure q en hen

theorem relay_channel_isolation_witness :
    promptJoins trW ∧
    (⟨0, Msg.started 4 2 none⟩ : Entry) ∈ (exec trW).queues.getD 0 [] ∧
    (⟨0, Msg.started 4 2 none⟩ : Entry).wid = 0 :=
  ⟨by decide, by decide,
    relay_channel_isolation trW (by decide) 0 ⟨0, Msg.started 4 2 none⟩ (by decide)⟩

/-- Claim C2 counterexample: under schedule `c2tr` a stop's join times
out, `_stop_running` force-closes the shared engine handle, and when the
zombie worker later exits its finally-block closes the same handle a
second time: the single tracked handle ends with close count 2. -/
theorem engine_handle_double_close :
    (exec c2tr).models = [{ closed := 2, creator := 0 }] ∧
    aliveW (exec c2tr) 0 = false := by
  decide

/-- Claim C2 (amended): when every stop's join completes within the
timeout, each engine handle is closed at most once — exactly once by the
time its creating worker has exited — and a stop issued while no run is
alive closes nothing.  When a join times out the guarantee is lost: the
force-close in `_stop_running` and the zombie worker's own finally-block
can close the same handle twice (see the counterexample). -/
theorem engine_close_discipline :
    (∀ (es : List Ev), promptJoins es →
      ∀ (mi : Nat) (rec : MRec), (exec es).models[mi]? = some rec →
        rec.closed ≤ 1 ∧
        (aliveW (exec es) rec.creator = false → rec.closed = 1)) ∧
    (∀ (g : GState) (j : Bool), isAlive g = false →
      (runnerStop j g).models = g.models) := by
  constructor
  · intro es hj mi rec hrec
    have h := (exec_inv es hj).closed_alive mi rec hrec
    constructor
    · cases hx : aliveW (exec es) rec.creator
      · have h1 := h.2 hx
        omega
      · have h0 := h.1 hx
        omega
    · exact h.2
  · intro g j hna
    exact stop_not_alive_no_close g j hna

theorem engine_close_discipline_witness :
    (promptJoins trGood ∧
      (exec trGood).models[0]? = some { closed := 1, creator := 0 } ∧
      ({ closed := 1, creator := 0 } : MRec).closed ≤ 1) ∧
    isAlive g0 = false ∧ (runnerStop false g0).models = g0.models :=
  ⟨⟨by decide, by decide,
      (engine_close_discipline.1 trGood (by decide) 0
        { closed := 1, creator := 0 } (by decide)).1⟩,
    rfl, engine_close_discipline.2 g0 false rfl⟩

theorem worker_terminal_protocol_witness :
    (runWorker cfg15 envDoneBacklog).ranOut = false ∧
    (runWorker cfg15 envDoneBacklog).acts.getLast? = some (Act.put Msg.done) :=
  ⟨by decide, (worker_terminal_protocol cfg15 envDoneBacklog (by decide)).1⟩

/-- Claim C4 counterexample: with one successful step reporting
insertion completed, empty embedding-queue levels, but an insertion
backlog of 5, the loop exits and the final frame carries
`is_done = true` while `insertion_queue_size = 5`: the exit condition
ignores the insertion and update backlogs. -/
theorem loop_exit_ignores_insertion_backlog :
    (runWorker cfg15 envDoneBacklog).ranOut = false ∧
    msgsOf (runWorker cfg15 envDoneBacklog).acts =
      [Msg.started 4 2 none, Msg.embedding (mkEmbMsg rDoneBacklog true), Msg.done] ∧
    (mkEmbMsg rDoneBacklog true).is_done = true ∧
    (mkEmbMsg rDoneBacklog true).insertion_queue_size = 5 := by
  decide

theorem loop_completion_witness :
    ∃ (pre : List EmbMsg) (last : EmbMsg),
      msgsOf (runWorker cfg15 envDoneBacklog).acts =
        Msg.started ldSmall.n_instances ldSmall.n_features (classLabelsOf ldSmall) ::
          (pre.map Msg.embedding ++ [Msg.embedding last, Msg.done]) ∧
      last.is_done = true ∧
      last.embedding_queue_levels.sum = 0 ∧
      (∀ v ∈ last.embedding_queue_levels, v = 0) ∧
      (∀ em ∈ pre, em.is_done = false) := by
  refine loop_completion cfg15 envDoneBacklog ldSmall 1 rfl rfl rfl rfl rfl ?_ (by decide)
  intro s hs
  simp only [envDoneBacklog, List.mem_singleton] at hs
  exact ⟨rDoneBacklog, hs⟩

set_option maxRecDepth 40000

/-- Claim C5 (code bug): the test client cannot parse any frame the
server produces.  The server packs a 144-byte header `<QIIQQffffQQ10Q>`
but the client unpacks a 76-byte header `<IIIIIffff10I>`: it reads its
`n_points` from bytes 4..7 (the high half of the server's u64
`n_inserted`) and computes `payload_bytes = len - 76 = 68 + 8P`, which is
≡ 4 (mod 8) and therefore never equals `n_points * 2 * 4`; the parser
reports `ok = false` on every server frame — exhibited on the spec's
100-point example frame and proved for all messages. -/
theorem client_rejects_every_server_frame :
    msg100.emb.length = 100 ∧
    (encodeFrame msg100).length = 944 ∧
    parseOk (parseBinaryFrame (encodeFrame msg100)) = false ∧
    (∀ m : EmbMsg, parseOk (parseBinaryFrame (encodeFrame m)) = false) :=
  ⟨by decide, by decide, by decide, fun m => c5_universal m⟩

theorem encode_header_layout_witness :
    (encodeFrame msgSmall).length = 144 + 8 * msgSmall.emb.length ∧
    readLE (encodeFrame msgSmall) 0 8 = msgSmall.n_inserted ∧
    readLE (encodeFrame msgSmall) 8 4 = msgSmall.emb.length := by
  have h := encode_header_layout msgSmall (by decide) (by decide) (by decide)
    (by decide) (by decide) (by decide) (by decide) (by decide) (by decide)
    (by decide) (by decide) (by decide)
  exact ⟨h.1, h.2.1, h.2.2.1⟩

theorem neighbors_validation_witness :
    runWorker cfg0 envPlain = finishErr [] false 0
      { cls := "ValueError",
        msg := "n_neighbors must be in [1, " ++ toString MAX_NEIGHBORS ++
               "] (got " ++ toString (cfgNeighbors cfg0) ++ ").",
        isMemErr := false } ∧
    (runWorker cfg0 envPlain).ctorAttempts = 0 :=
  ⟨(neighbors_validation cfg0 envPlain ldSmall rfl rfl (Or.inl (by decide))).1,
    (neighbors_validation cfg0 envPlain ldSmall rfl rfl (Or.inl (by decide))).2.1⟩

/-- Claim C8 counterexample: when both construction attempts fail with a
plain `MemoryError` (no CUDA OS-error signature), the final error message
is only "GPUMAP failed with std::bad_alloc. Original error: ..." — the
`python -c` verification command the spec promises is absent. -/
theorem bad_alloc_retry_message_lacks_command :
    (runWorker cfg15 envMem).ctorAttempts = 2 ∧
    msgsOf (runWorker cfg15 envMem).acts =
      [Msg.error "GPUMAP failed with std::bad_alloc. Original error: std::bad_alloc"
         ("RuntimeError: " ++
           "GPUMAP failed with std::bad_alloc. Original error: std::bad_alloc"),
       Msg.done] ∧
    strContains "GPUMAP failed with std::bad_alloc. Original error: std::bad_alloc"
      "python -c" = false := by
  decide

theorem construct_retry_policy_witness :
    runWorker cfg15 envOther = finishErr [] false 1 otherErr ∧
    (runWorker cfg15 envMem).ctorAttempts = 2 ∧
    runWorker cfg15 envCuda = finishErr [] false 2
      { cls := "RuntimeError", msg := formatBadAllocMessage cudaAllocErr,
        isMemErr := false } ∧
    strContains verifyCmd "python -c" = true :=
  ⟨(construct_retry_policy cfg15 envOther ldSmall rfl rfl rfl).1 otherErr
      rfl (by decide),
    (construct_retry_policy cfg15 envMem ldSmall rfl rfl rfl).2.1 memErr
      rfl (by decide),
    ((construct_retry_policy cfg15 envCuda ldSmall rfl rfl rfl).2.2
      cudaAllocErr cudaAllocErr rfl (by decide) rfl (by decide)).1,
    ((construct_retry_policy cfg15 envCuda ldSmall rfl rfl rfl).2.2
      cudaAllocErr cudaAllocErr rfl (by decide) rfl (by decide)).2.2.2⟩

/-- Claim C9: immediately after `stop()` returns, `is_alive()` is false
in every state — even when the 30-second join timed out and the worker
thread is still executing — because `_stop_running` unconditionally
clears the stored thread reference in its final lines. -/
theorem stop_clears_thread_is_alive_false (g : GState) (j : Bool) :
    isAlive (runnerStop j g) = false :=
  rfl

theorem getNextChunk_spec_witness :
    (mkNpyLoader [10, 20, 30]).idx ≤ (mkNpyLoader [10, 20, 30]).X.length ∧
    ((getNextChunk (mkNpyLoader [10, 20, 30]) 2).1).length =
      min 2 ((mkNpyLoader [10, 20, 30]).X.length - (mkNpyLoader [10, 20, 30]).idx) ∧
    (getNextChunk (mkNpyLoader [10, 20, 30]) 2).2.X = (mkNpyLoader [10, 20, 30]).X :=
  ⟨by decide,
    (getNextChunk_spec (mkNpyLoader [10, 20, 30]) 2 (by decide)).1,
    (getNextChunk_spec (mkNpyLoader [10, 20, 30]) 2 (by decide)).2.2.2.1⟩

end GpumapViz
